import Mathlib

/-!
Verification of the xDS EDS load-balancing core (grpc-go xds fragment).

The Lean definitions below are shallow embeddings of the Go source files:
- `xds/pkg/resolver/watch_service.go` (service watcher and domain matcher),
- `xds/pkg/balancer/edsbalancer/eds_impl.go` (EDS balancer, drop picker),
- `xds/pkg/balancer/edsbalancer/util.go` (dropper),
- the EDS response parser (`parseEDSRespProto`),
- the cache lookup `UpdateCache.FindEndpointsByListenerName`.

Side-effecting calls on collaborators (balancer group, aggregator, client
connection, load reporter, service-request counter) are modelled as explicit
events/operations emitted by the embedded functions, and mutable receiver
state is threaded through explicitly.  Go maps are modelled as association
lists with a deterministic iteration order (Go's map iteration order is
unspecified; the proved statements do not depend on the chosen order).
-/

namespace GrpcXds

/-! ## Shared data model (xds/pkg/client types) -/

/-- `pkg.LocalityID`: the (region, zone, subZone) triple. -/
structure LocalityID where
  region : String
  zone : String
  subZone : String
deriving DecidableEq, Repr

/-- `xdsclient.EndpointHealthStatus` (Envoy core.HealthStatus numbering). -/
inductive EndpointHealthStatus where
  | unknown
  | healthy
  | unhealthy
  | draining
  | timeout
  | degraded
deriving DecidableEq, Repr

/-- `xdsclient.Endpoint`. -/
structure Endpoint where
  address : String
  healthStatus : EndpointHealthStatus
  weight : Nat
deriving DecidableEq, Repr

/-- `xdsclient.Locality`. -/
structure Locality where
  id : LocalityID
  endpoints : List Endpoint
  weight : Nat
  priority : Nat
deriving DecidableEq, Repr

/-- `xdsclient.OverloadDropConfig`. -/
structure OverloadDropConfig where
  category : String
  numerator : Nat
  denominator : Nat
deriving DecidableEq, Repr

/-- `xdsclient.EndpointsUpdate`. -/
structure EndpointsUpdate where
  drops : List OverloadDropConfig
  localities : List Locality
deriving DecidableEq, Repr

/-- Association-list lookup, standing in for a Go map read `m[k]`. -/
def alookup {K V : Type} [DecidableEq K] : List (K × V) → K → Option V
  | [], _ => none
  | kv :: rest, k => if kv.1 = k then some kv.2 else alookup rest k

/-- Association-list write `m[k] = v`: replaces the binding if the key is
present, appends otherwise. -/
def ainsert {K V : Type} [DecidableEq K] : List (K × V) → K → V → List (K × V)
  | [], k, v => [(k, v)]
  | kv :: rest, k, v =>
    if kv.1 = k then (k, v) :: rest else kv :: ainsert rest k v

/-- Keys of an association list. -/
def akeys {K V : Type} (l : List (K × V)) : List K := l.map (fun kv => kv.1)

/-! ## Domain matcher (watch_service.go lines 168-260) -/

/-- `domainMatchType` with the Go iota numbering
(invalid = 0, universal = 1, prefixKind = 2, suffixKind = 3, exact = 4). -/
inductive DomainMatchType where
  | invalid
  | universal
  | prefixKind
  | suffixKind
  | exact
deriving DecidableEq, Repr

/-- The underlying iota value of a `domainMatchType` constant. -/
def DomainMatchType.rank : DomainMatchType → Nat
  | .invalid => 0
  | .universal => 1
  | .prefixKind => 2
  | .suffixKind => 3
  | .exact => 4

/-- `func (t domainMatchType) betterThan(b domainMatchType) bool { return t > b }` -/
def DomainMatchType.betterThan (t b : DomainMatchType) : Prop :=
  t.rank > b.rank

instance : DecidableRel DomainMatchType.betterThan := fun t b =>
  inferInstanceAs (Decidable (t.rank > b.rank))

/-- `strings.TrimSuffix(d, "*")`: drop one trailing star if present. -/
def trimTrailingStar (d : String) : String :=
  if d.endsWith "*" then d.dropRight 1 else d

/-- `strings.TrimPrefix(d, "*")`: drop one leading star if present. -/
def trimLeadingStar (d : String) : String :=
  if d.startsWith "*" then d.drop 1 else d

/-- `matchTypeForDomain` (watch_service.go lines 183-200). -/
def matchTypeForDomain (d : String) : DomainMatchType :=
  if d = "" then .invalid
  else if d = "*" then .universal
  else if d.startsWith "*" then .suffixKind
  else if d.endsWith "*" then .prefixKind
  else if d.contains '*' then .invalid
  else .exact

/-- `match(domain, host string) (domainMatchType, bool)`
(watch_service.go lines 202-219). -/
def matchDomain (domain host : String) : DomainMatchType × Bool :=
  match matchTypeForDomain domain with
  | .invalid => (.invalid, false)
  | .universal => (.universal, true)
  | .prefixKind => (.prefixKind, host.startsWith (trimTrailingStar domain))
  | .suffixKind => (.suffixKind, host.endsWith (trimLeadingStar domain))
  | .exact => (.exact, domain == host)

/-- `xdsclient.VirtualHost`: the fields read by the verified fragment. -/
structure RouteM where
  weightedClusters : List (String × Nat)
deriving DecidableEq, Repr

structure VirtualHost where
  domains : List String
  routes : List RouteM
deriving DecidableEq, Repr

/-- The accumulator of `findBestMatchingVirtualHost`'s loop:
`(matchVh, matchType, matchLen)`. -/
structure BestAcc where
  matchVh : Option VirtualHost
  matchType : DomainMatchType
  matchLen : Nat
deriving DecidableEq, Repr

/-- One iteration of the inner `for _, domain := range vh.Domains` loop
(watch_service.go lines 243-257).  `none` models the early `return nil`
taken when an invalid pattern is seen. -/
def bestStep (host : String) (vh : VirtualHost) (acc : BestAcc) (domain : String) :
    Option BestAcc :=
  let tm := matchDomain domain host
  if tm.1 = .invalid then
    none
  else if acc.matchType.betterThan tm.1 ∨
      (acc.matchType = tm.1 ∧ acc.matchLen ≥ domain.length) ∨ tm.2 = false then
    some acc
  else
    some ⟨some vh, tm.1, domain.length⟩

/-- The inner loop over one virtual host's domains. -/
def domainsLoop (host : String) (vh : VirtualHost) :
    List String → BestAcc → Option BestAcc
  | [], acc => some acc
  | d :: ds, acc =>
    match bestStep host vh acc d with
    | none => none
    | some acc1 => domainsLoop host vh ds acc1

/-- The outer loop over the virtual hosts. -/
def vhostsLoop (host : String) : List VirtualHost → BestAcc → Option BestAcc
  | [], acc => some acc
  | vh :: vhs, acc =>
    match domainsLoop host vh vh.domains acc with
    | none => none
    | some acc1 => vhostsLoop host vhs acc1

/-- `findBestMatchingVirtualHost` (watch_service.go lines 236-260). -/
def findBestMatchingVirtualHost (host : String) (vHosts : List VirtualHost) :
    Option VirtualHost :=
  match vhostsLoop host vHosts ⟨none, .invalid, 0⟩ with
  | none => none
  | some acc => acc.matchVh

/-! ### Spec-side characterization of the domain matcher

Written from the spec's words: priority `Exact > Suffix > Prefix > Universal`,
among equal kinds the longer pattern wins, ties keep the first-seen pattern,
and any invalid pattern makes the whole response a "no match".  The selection
rule is expressed with `List.argmax` over the lexicographic key
(kind rank, pattern length); `List.argmax` returns the first element among
those with a maximal key. -/

/-- All (virtual host, domain pattern) candidates, in scan order. -/
def vhCandidates (vHosts : List VirtualHost) : List (VirtualHost × String) :=
  vHosts.flatMap (fun vh => vh.domains.map (fun d => (vh, d)))

/-- The spec ordering key of a candidate: kind rank, then pattern length,
compared lexicographically. -/
def candKey (c : VirtualHost × String) : Lex (Nat × Nat) :=
  toLex ((matchTypeForDomain c.2).rank, c.2.length)

/-- Spec-side best-matching virtual host selection. -/
def specFindBestMatchingVirtualHost (host : String) (vHosts : List VirtualHost) :
    Option VirtualHost :=
  let cs := vhCandidates vHosts
  if ∃ c ∈ cs, matchTypeForDomain c.2 = .invalid then
    none
  else
    (List.argmax candKey (cs.filter (fun c => (matchDomain c.2 host).2))).map
      (fun c => c.1)

/-- The code's nested loops, re-expressed over the flattened candidate list
(proved equal to `vhostsLoop` below). -/
def candLoop (host : String) :
    List (VirtualHost × String) → BestAcc → Option BestAcc
  | [], acc => some acc
  | c :: cs, acc =>
    match bestStep host c.1 acc c.2 with
    | none => none
    | some acc1 => candLoop host cs acc1

/-- `bestStep` without the invalid early-return (used once invalid patterns
are excluded). -/
def stepPure (host : String) (acc : BestAcc) (c : VirtualHost × String) :
    BestAcc :=
  let tm := matchDomain c.2 host
  if acc.matchType.betterThan tm.1 ∨
      (acc.matchType = tm.1 ∧ acc.matchLen ≥ c.2.length) ∨ tm.2 = false then
    acc
  else
    ⟨some c.1, tm.1, c.2.length⟩

/-- The loop accumulator denoted by an optional current-best candidate. -/
def accOf : Option (VirtualHost × String) → BestAcc
  | none => ⟨none, .invalid, 0⟩
  | some c => ⟨some c.1, matchTypeForDomain c.2, c.2.length⟩

/-! ## EDS response parsing (parseEDSRespProto) -/

/-- `envoy type FractionalPercent` denominator enum. -/
inductive FracDenominatorType where
  | hundred
  | tenThousand
  | million
deriving DecidableEq, Repr

/-- The fields of `ClusterLoadAssignment_Policy_DropOverload` that the parser
reads. -/
structure ProtoDropOverload where
  category : String
  numerator : Nat
  denominatorType : FracDenominatorType
deriving DecidableEq, Repr

/-- The fields of `endpointpb.LbEndpoint` that the parser reads
(`parseAddress` joins the socket address host and port). -/
structure ProtoLbEndpoint where
  healthStatus : EndpointHealthStatus
  host : String
  port : Nat
  loadBalancingWeight : Nat
deriving DecidableEq, Repr

/-- The fields of `endpointpb.LocalityLbEndpoints` that the parser reads.
`locality = none` models a nil `Locality` message. -/
structure ProtoLocalityLbEndpoints where
  locality : Option LocalityID
  lbEndpoints : List ProtoLbEndpoint
  loadBalancingWeight : Nat
  priority : Nat
deriving DecidableEq, Repr

/-- The fields of `xdspb.ClusterLoadAssignment` that the parser reads. -/
structure ClusterLoadAssignment where
  dropOverloads : List ProtoDropOverload
  endpoints : List ProtoLocalityLbEndpoints
deriving DecidableEq, Repr

/-- `parseAddress`: `net.JoinHostPort(addr, port)`. -/
def parseAddress (host : String) (port : Nat) : String :=
  host ++ ":" ++ toString port

/-- `parseDropPolicy`. -/
def parseDropPolicy (d : ProtoDropOverload) : OverloadDropConfig :=
  { category := d.category
    numerator := d.numerator
    denominator :=
      match d.denominatorType with
      | .hundred => 100
      | .tenThousand => 10000
      | .million => 1000000 }

/-- `parseEndpoints`. -/
def parseEndpoints (lbEndpoints : List ProtoLbEndpoint) : List Endpoint :=
  lbEndpoints.map (fun e =>
    { healthStatus := e.healthStatus
      address := parseAddress e.host e.port
      weight := e.loadBalancingWeight })

/-- The `for _, locality := range m.Endpoints` loop of `parseEDSRespProto`:
collects the distinct priorities (the Go `priorities` map, as an
insertion-ordered list) and the parsed localities, failing at the first
locality without an ID. -/
def parseLocalitiesLoop :
    List ProtoLocalityLbEndpoints → List Nat → List Locality →
      Option (List Nat × List Locality)
  | [], ps, acc => some (ps, acc)
  | l :: rest, ps, acc =>
    match l.locality with
    | none => none
    | some lid =>
      let priority := l.priority
      let ps1 := if priority ∈ ps then ps else ps ++ [priority]
      parseLocalitiesLoop rest ps1
        (acc ++ [{ id := lid
                   endpoints := parseEndpoints l.lbEndpoints
                   weight := l.loadBalancingWeight
                   priority := priority }])

/-- The `for i := 0; i < len(priorities); i++` dense-prefix check. -/
def prioritiesDense (ps : List Nat) : Bool :=
  (List.range ps.length).all (fun i => ps.contains i)

/-- `parseEDSRespProto` (returns `(EndpointsUpdate{}, err)` on failure,
modelled as the error message presence; the Go error strings are not
reproduced). -/
def parseEDSRespProto (m : ClusterLoadAssignment) :
    EndpointsUpdate × Bool :=
  let drops := m.dropOverloads.map parseDropPolicy
  match parseLocalitiesLoop m.endpoints [] [] with
  | none => (⟨[], []⟩, true)
  | some (ps, localities) =>
    if prioritiesDense ps then (⟨drops, localities⟩, false)
    else (⟨[], []⟩, true)

/-- The distinct priorities of a `ClusterLoadAssignment`, in first-appearance
order (what the Go `priorities` map holds when no locality is nil). -/
def claPriorities (m : ClusterLoadAssignment) : List Nat :=
  m.endpoints.foldl
    (fun ps l => if l.priority ∈ ps then ps else ps ++ [l.priority]) []

/-! ## Dropper (util.go) and drop picker (eds_impl.go lines 509-571) -/

/-- One `(item, weight)` entry added to a `wrr.WRR`; the dropper only ever
adds booleans.  The WRR itself is a collaborator (`internal/wrr`); per the
spec it is a random weighted selector over the added entries. -/
structure WRRBoolEntry where
  value : Bool
  weight : Nat
deriving DecidableEq, Repr

/-- `dropper` (util.go lines 26-29). -/
structure Dropper where
  c : OverloadDropConfig
  w : List WRRBoolEntry
deriving DecidableEq, Repr

/-- `newDropper` (util.go lines 31-40): a random-WRR over
`{true: numerator, false: denominator - numerator}`. -/
def newDropper (c : OverloadDropConfig) : Dropper :=
  { c := c
    w := [⟨true, c.numerator⟩, ⟨false, c.denominator - c.numerator⟩] }

/-- Modelled from the spec: `client.ServiceRequestsCounter` (not under src/;
only its interface is used by the drop picker).  Per spec sections 2, 5 and 9
it is a process-wide per-service in-flight counter: `StartRequest(max)` does a
compare-and-increment that fails when the cap is exceeded, `EndRequest`
decrements. -/
structure ServiceRequestsCounter where
  serviceName : String
  numRequests : Nat
deriving DecidableEq, Repr

/-- Modelled from the spec: `StartRequest(max)` fails iff the incremented
in-flight count would exceed `max`. -/
def startRequest (c : ServiceRequestsCounter) (countMax : Nat) :
    Option ServiceRequestsCounter :=
  if c.numRequests + 1 > countMax then none
  else some { c with numRequests := c.numRequests + 1 }

/-- Modelled from the spec: `EndRequest` decrements the in-flight count. -/
def endRequest (c : ServiceRequestsCounter) : ServiceRequestsCounter :=
  { c with numRequests := c.numRequests - 1 }

/-- A gRPC status code, as far as the drop picker uses them. -/
inductive GCode where
  | unavailable
  | otherCode
deriving DecidableEq, Repr

/-- A gRPC error as produced/propagated by the drop picker. -/
structure GError where
  code : GCode
  msg : String
deriving DecidableEq, Repr

/-- Observable calls the drop picker makes on its collaborators during one
`Pick`. -/
inductive PickEvent where
  | callDropped (category : String)
  | startRequestOk
  | endRequestCall
deriving DecidableEq, Repr

/-- What a done callback performs when invoked: an `EndRequest` on the
counter, or the invocation of the inner picker's original done callback. -/
inductive DoneEvent where
  | endRequestDone
  | innerDone
deriving DecidableEq, Repr

/-- The inner picker's successful pick result: an opaque SubConn id plus
whether a `Done` callback was attached. -/
structure InnerPickResult where
  subConnId : Nat
  hasDone : Bool
deriving DecidableEq, Repr

/-- The pick result returned by the drop picker: the SubConn and the sequence
of actions its `Done` callback performs when invoked once. -/
structure WrappedPickResult where
  subConnId : Nat
  doneSeq : List DoneEvent
deriving DecidableEq, Repr

/-- `dropPicker` (eds_impl.go lines 509-515).  `hasLoadStore` models
`loadStore != nil`; the counter is `nil` or a concrete counter value. -/
structure DropPicker where
  drops : List Dropper
  hasLoadStore : Bool
  counter : Option ServiceRequestsCounter
  countMax : Nat
deriving DecidableEq, Repr

/-- The `for _, dp := range d.drops` loop: each `dp.drop()` consults the
random WRR; the successive random outcomes are supplied by `rolls`.  Returns
the category of the first dropper whose roll is true. -/
def firstDrop : List Dropper → List Bool → Option String
  | [], _ => none
  | _, [] => none
  | dp :: _, true :: _ => some dp.c.category
  | _ :: dps, false :: rolls => firstDrop dps rolls

/-- The outcome of one `dropPicker.Pick`: the returned result or error, the
collaborator calls made synchronously (in order), and the counter state after
the call. -/
structure PickOutcome where
  res : Except GError WrappedPickResult
  events : List PickEvent
  counter : Option ServiceRequestsCounter
deriving Repr

/-- `dropPicker.Pick` (eds_impl.go lines 527-571).  `rolls` supplies the
dropper WRR outcomes, `inner` the inner picker's result. -/
def dropPickerPick (d : DropPicker) (rolls : List Bool)
    (inner : Except GError InnerPickResult) : PickOutcome :=
  match firstDrop d.drops rolls with
  | some category =>
    { res := .error ⟨.unavailable, "RPC is dropped"⟩
      events := if d.hasLoadStore then [.callDropped category] else []
      counter := d.counter }
  | none =>
    match d.counter with
    | some ctr =>
      match startRequest ctr d.countMax with
      | none =>
        -- Drops by circuit breaking are reported with empty category.
        { res := .error ⟨.unavailable, "max requests exceeded"⟩
          events := if d.hasLoadStore then [.callDropped ""] else []
          counter := some ctr }
      | some ctr1 =>
        match inner with
        | .error e =>
          { res := .error e
            events := [.startRequestOk, .endRequestCall]
            counter := some (endRequest ctr1) }
        | .ok pr =>
          { res := .ok { subConnId := pr.subConnId
                         doneSeq := .endRequestDone ::
                           (if pr.hasDone then [.innerDone] else []) }
            events := [.startRequestOk]
            counter := some ctr1 }
    | none =>
      { res := inner.map (fun pr =>
          { subConnId := pr.subConnId
            doneSeq := if pr.hasDone then [.innerDone] else [] })
        events := []
        counter := none }

/-! ## Service watcher (watch_service.go lines 31-166) -/

/-- `ldsConfig` (watch_service.go lines 43-48).  Durations are in
nanoseconds; HTTP filters are opaque to the watcher and modelled by name. -/
structure LdsConfig where
  maxStreamDuration : Nat
  httpFilterConfig : List String
deriving DecidableEq, Repr

/-- `serviceUpdate` (watch_service.go lines 34-39). -/
structure ServiceUpdate where
  virtualHost : Option VirtualHost
  ldsConfig : LdsConfig
deriving DecidableEq, Repr

/-- The zero value `serviceUpdate{}`. -/
def emptyServiceUpdate : ServiceUpdate :=
  { virtualHost := none, ldsConfig := { maxStreamDuration := 0, httpFilterConfig := [] } }

/-- The fields of `xdsclient.ListenerUpdate` read by the watcher. -/
structure ListenerUpdate where
  routeConfigName : String
  maxStreamDuration : Nat
  httpFilters : List String
deriving DecidableEq, Repr

/-- The fields of `xdsclient.RouteConfigUpdate` read by the watcher. -/
structure RouteConfigUpdate where
  virtualHosts : List VirtualHost
deriving DecidableEq, Repr

/-- The kind of an xDS callback error, as far as the watcher inspects it
(`xdsclient.ErrType`). -/
inductive XdsErrType where
  | resourceNotFound
  | otherError
deriving DecidableEq, Repr

/-- An error delivered to a watch callback. -/
structure XdsError where
  errType : XdsErrType
  msg : String
deriving DecidableEq, Repr

/-- The error delivered to the service callback: either a forwarded xDS error
or the watcher's own "no matching virtual host found" error. -/
inductive ServiceCbError where
  | forwarded (e : XdsError)
  | noMatchingVirtualHost (serviceName : String)
deriving DecidableEq, Repr

/-- The mutable state of `serviceUpdateWatcher`.  `rdsActive` models
`rdsCancel != nil`. -/
structure WatcherState where
  serviceName : String
  closed : Bool
  rdsName : String
  rdsActive : Bool
  lastUpdate : ServiceUpdate
deriving DecidableEq, Repr

/-- The observable calls the watcher makes: cancelling the RDS watch,
starting a new RDS watch, and invoking the service callback. -/
inductive WatchEvent where
  | rdsCancelCall
  | rdsWatchStart (routeName : String)
  | serviceCb (u : ServiceUpdate) (err : Option ServiceCbError)
deriving DecidableEq, Repr

/-- The state of a freshly created watcher (`watchService`,
watch_service.go lines 56-66). -/
def freshWatcher (serviceName : String) : WatcherState :=
  { serviceName := serviceName
    closed := false
    rdsName := ""
    rdsActive := false
    lastUpdate := emptyServiceUpdate }

/-- `serviceUpdateWatcher.handleLDSResp` (watch_service.go lines 84-127).
`err = some e` models a non-nil error (in which case Go passes the zero
`ListenerUpdate`). -/
def handleLDSResp (w : WatcherState) (update : ListenerUpdate)
    (err : Option XdsError) : WatcherState × List WatchEvent :=
  if w.closed then (w, [])
  else
    match err with
    | some e =>
      if e.errType = .resourceNotFound ∧ w.rdsActive then
        ({ w with rdsName := "", rdsActive := false,
                  lastUpdate := emptyServiceUpdate },
         [.rdsCancelCall, .serviceCb emptyServiceUpdate (some (.forwarded e))])
      else
        (w, [.serviceCb emptyServiceUpdate (some (.forwarded e))])
    | none =>
      let w1 := { w with lastUpdate :=
        { w.lastUpdate with ldsConfig :=
          { maxStreamDuration := update.maxStreamDuration
            httpFilterConfig := update.httpFilters } } }
      if w1.rdsName = update.routeConfigName then
        (w1, [.serviceCb w1.lastUpdate none])
      else
        ({ w1 with rdsName := update.routeConfigName, rdsActive := true },
         (if w1.rdsActive then [.rdsCancelCall] else []) ++
           [.rdsWatchStart update.routeConfigName])

/-- `serviceUpdateWatcher.handleRDSResp` (watch_service.go lines 129-155). -/
def handleRDSResp (w : WatcherState) (update : RouteConfigUpdate)
    (err : Option XdsError) : WatcherState × List WatchEvent :=
  if w.closed then (w, [])
  else if w.rdsActive = false then (w, [])
  else
    match err with
    | some e => (w, [.serviceCb emptyServiceUpdate (some (.forwarded e))])
    | none =>
      match findBestMatchingVirtualHost w.serviceName update.virtualHosts with
      | none =>
        (w, [.serviceCb emptyServiceUpdate
              (some (.noMatchingVirtualHost w.serviceName))])
      | some vh =>
        let w1 := { w with lastUpdate := { w.lastUpdate with virtualHost := some vh } }
        (w1, [.serviceCb w1.lastUpdate none])

/-! ## Cache lookup (`UpdateCache.FindEndpointsByListenerName`) -/

/-- The fields of `client.ClusterUpdate` read by the cache lookup. -/
structure ClusterUpdate where
  serviceName : String
deriving DecidableEq, Repr

/-- `UpdateCache` (caches as association lists keyed by resource name). -/
structure UpdateCache where
  ldsCache : List (String × ListenerUpdate)
  rdsCache : List (String × RouteConfigUpdate)
  cdsCache : List (String × ClusterUpdate)
  edsCache : List (String × EndpointsUpdate)
deriving Repr

/-- Failure modes of the cache lookup: `errResourceNotFound`, or a Go
runtime panic from an out-of-range slice index. -/
inductive CacheLookupErr where
  | resourceNotFound
  | panicIndexOutOfRange
deriving DecidableEq, Repr

/-- `UpdateCache.FindEndpointsByListenerName` (part_002 lines 156-190).
The guard in the source is
`if len(rt.VirtualHosts) <= 0 && len(rt.VirtualHosts[0].Routes) <= 0`:
`&&` short-circuits, and evaluating its second operand indexes
`rt.VirtualHosts[0]`.  The embedding reproduces that evaluation order;
an out-of-range index is modelled as `panicIndexOutOfRange`. -/
def findEndpointsByListenerName (u : UpdateCache) (name : String) :
    Except CacheLookupErr EndpointsUpdate :=
  match alookup u.ldsCache name with
  | none => .error .resourceNotFound
  | some ls =>
    match alookup u.rdsCache ls.routeConfigName with
    | none => .error .resourceNotFound
    | some rt =>
      match rt.virtualHosts with
      | [] =>
        -- len(rt.VirtualHosts) <= 0 is true, so the second operand of the
        -- guard evaluates rt.VirtualHosts[0].Routes: index out of range.
        .error .panicIndexOutOfRange
      | vh0 :: _ =>
        -- The guard's first operand is false and && short-circuits, so the
        -- body falls through to rt.VirtualHosts[0].Routes[0].
        match vh0.routes with
        | [] => .error .panicIndexOutOfRange
        | r0 :: _ =>
          -- `for key := range ...WeightedClusters { cluster = key; break }`;
          -- over an empty map the loop body never runs and cluster stays "".
          let cluster :=
            match r0.weightedClusters with
            | [] => ""
            | (k, _) :: _ => k
          match alookup u.cdsCache cluster with
          | none => .error .resourceNotFound
          | some cs =>
            match alookup u.edsCache cs.serviceName with
            | none => .error .resourceNotFound
            | some es => .ok es

/-! ## EDS balancer core (eds_impl.go lines 50-394)

The balancer group, aggregator, client connection and priority manager are
collaborators; the calls made on them are recorded as `EdsOp` events.  The
per-priority `balancerGroupWithConfig` keeps only the state the algorithm
reads back, namely `configs`.  Locality keys are the `LocalityID` values
themselves (Go keys child balancers by the JSON serialization of the ID,
which is injective). -/

/-- `connectivity.State`. -/
inductive ConnState where
  | idle
  | connecting
  | ready
  | transientFailure
  | shutdown
deriving DecidableEq, Repr

/-- A resolved address pushed to a child balancer: the endpoint address plus
the optional weighted-round-robin weight attribute
(`weightedroundrobin.SetAddrInfo` / `Metadata`). -/
structure AddressM where
  addr : String
  weightAttr : Option Nat
deriving DecidableEq, Repr

/-- `localityConfig` (eds_impl.go lines 50-53). -/
structure LocalityConfig where
  weight : Nat
  addrs : List AddressM
deriving DecidableEq, Repr

/-- `balancerGroupWithConfig`: the `configs` map (the `bg` and
`stateAggregator` collaborators are represented by the emitted events). -/
structure BGWC where
  configs : List (LocalityID × LocalityConfig)
deriving DecidableEq, Repr

/-- The picker published with a `ClientConn.UpdateState`:
`base.NewErrPicker(err)` or a rebuilt `newDropPicker(...)` wrapper. -/
inductive PickerRep where
  | errPicker (msg : String)
  | dropWrapped
deriving DecidableEq, Repr

/-- `errAllPrioritiesRemoved` (message defined in the priority manager file,
a collaborator of this fragment). -/
def errAllPrioritiesRemoved : String :=
  "no priority is provided, all priorities are removed"

/-- `base.NewErrPicker(err).Pick`: returns `err` on every pick, for any pick
info (pick info is irrelevant and modelled as `Nat`). -/
def errPickerPick (msg : String) (_info : Nat) : Except String InnerPickResult :=
  .error msg

/-- The observable operations `handleEDSResponse` performs on its
collaborators. -/
inductive EdsOp where
  | ccUpdateState (s : ConnState) (p : PickerRep)
  | newBalancerGroup (priority : Nat)
  | aggAdd (priority : Nat) (lid : LocalityID) (weight : Nat)
  | bgAdd (priority : Nat) (lid : LocalityID)
  | aggUpdateWeight (priority : Nat) (lid : LocalityID) (weight : Nat)
  | bgUpdateClientConnState (priority : Nat) (lid : LocalityID)
      (addrs : List AddressM)
  | aggRemove (priority : Nat) (lid : LocalityID)
  | bgRemove (priority : Nat) (lid : LocalityID)
  | aggBuildAndUpdate (priority : Nat)
  | bgClose (priority : Nat)
  | priorityChangeHandled
deriving DecidableEq, Repr

/-- The fields of `edsBalancerImpl` used by `handleEDSResponse`
(eds_impl.go lines 69-107).  `hasInnerPicker`/`innerConnState` model
`innerState`; the picker-manager fields (`priorityInUse`, `priorityToState`,
the init timer, the counter) belong to collaborator files. -/
structure EdsState where
  respReceived : Bool
  dropConfig : List OverloadDropConfig
  drops : List Dropper
  hasInnerPicker : Bool
  innerConnState : ConnState
  subBalancerName : String
  priorityToLocalities : List (Nat × BGWC)
  priorityLowest : Option Nat
deriving DecidableEq, Repr

/-- `roundrobin.Name`. -/
def roundRobinName : String := "round_robin"

/-- `weightedroundrobin.Name`. -/
def weightedRoundRobinName : String := "weighted_round_robin"

/-- The state set up by `newEDSBalancerImpl` (eds_impl.go lines 110-130). -/
def initialEdsState : EdsState :=
  { respReceived := false
    dropConfig := []
    drops := []
    hasInnerPicker := false
    innerConnState := .idle
    subBalancerName := roundRobinName
    priorityToLocalities := []
    priorityLowest := none }

/-- `updateDrops` (eds_impl.go lines 173-192). -/
def updateDrops (st : EdsState) (dropConfig : List OverloadDropConfig) :
    EdsState × List EdsOp :=
  if dropConfig = st.dropConfig then (st, [])
  else
    let st1 := { st with dropConfig := dropConfig
                         drops := dropConfig.map newDropper }
    if st1.hasInnerPicker then
      (st1, [.ccUpdateState st1.innerConnState .dropWrapped])
    else
      (st1, [])

/-- The address-building loop of `handleEDSResponsePerPriority`
(eds_impl.go lines 308-334): filter out unhealthy endpoints (unknown and
healthy are both considered healthy) and attach the weighted-round-robin
weight attribute iff the child policy is weighted-round-robin and the
endpoint weight is non-zero. -/
def buildAddrs (subBalancerName : String) (endpoints : List Endpoint) :
    List AddressM :=
  endpoints.filterMap (fun e =>
    if e.healthStatus ≠ .healthy ∧ e.healthStatus ≠ .unknown then
      none
    else
      some { addr := e.address
             weightAttr :=
               if subBalancerName = weightedRoundRobinName ∧ e.weight ≠ 0 then
                 some e.weight
               else
                 none })

/-- The accumulator of the `for _, locality := range newLocalities` loop. -/
structure PerPriorityAcc where
  configs : List (LocalityID × LocalityConfig)
  newSet : List LocalityID
  rebuild : Bool
  ops : List EdsOp
deriving Repr

/-- One iteration of the locality loop of `handleEDSResponsePerPriority`
(eds_impl.go lines 296-373). -/
def handleLocality (subBalancerName : String) (priority : Nat)
    (acc : PerPriorityAcc) (locality : Locality) : PerPriorityAcc :=
  let lid := locality.id
  let newSet := acc.newSet ++ [lid]
  let newWeight := locality.weight
  let newAddrs := buildAddrs subBalancerName locality.endpoints
  match alookup acc.configs lid with
  | none =>
    -- A new balancer: add it to balancer group and balancer map; for a new
    -- locality weightChanged is false and addrsChanged is true.
    { configs := ainsert acc.configs lid { weight := newWeight, addrs := newAddrs }
      newSet := newSet
      rebuild := acc.rebuild
      ops := acc.ops ++
        [.aggAdd priority lid newWeight, .bgAdd priority lid,
         .bgUpdateClientConnState priority lid newAddrs] }
  | some config =>
    let weightChanged := config.weight ≠ newWeight
    let addrsChanged := config.addrs ≠ newAddrs
    { configs := ainsert acc.configs lid { weight := newWeight, addrs := newAddrs }
      newSet := newSet
      rebuild := acc.rebuild ∨ weightChanged
      ops := acc.ops ++
        (if weightChanged then [.aggUpdateWeight priority lid newWeight] else []) ++
        (if addrsChanged then [.bgUpdateClientConnState priority lid newAddrs] else []) }

/-- The `for lid := range bgwc.configs` deletion loop of
`handleEDSResponsePerPriority` (eds_impl.go lines 376-389): drop every
locality that is not in the new set.  Returns the remaining configs, whether
anything was removed, and the removal operations. -/
def removeStaleLocalities (priority : Nat) (newSet : List LocalityID) :
    List (LocalityID × LocalityConfig) →
      List (LocalityID × LocalityConfig) × Bool × List EdsOp
  | [] => ([], false, [])
  | (lid, config) :: rest =>
    let (cfgs, removed, ops) := removeStaleLocalities priority newSet rest
    if lid ∈ newSet then ((lid, config) :: cfgs, removed, ops)
    else (cfgs, true, [.aggRemove priority lid, .bgRemove priority lid] ++ ops)

/-- `handleEDSResponsePerPriority` (eds_impl.go lines 290-394). -/
def handleEDSResponsePerPriority (subBalancerName : String) (priority : Nat)
    (bgwc : BGWC) (newLocalities : List Locality) : BGWC × List EdsOp :=
  let acc := newLocalities.foldl (handleLocality subBalancerName priority)
    { configs := bgwc.configs, newSet := [], rebuild := false, ops := [] }
  let (cfgs, removed, removeOps) :=
    removeStaleLocalities priority acc.newSet acc.configs
  let rebuild := acc.rebuild ∨ removed
  (⟨cfgs⟩,
   acc.ops ++ removeOps ++
     (if rebuild then [.aggBuildAndUpdate priority] else []))

/-- The priority bucketing loop of `handleEDSResponse`
(eds_impl.go lines 230-237): group the localities by priority, skipping
weight-0 localities, keeping per-priority arrival order. -/
def bucketAdd (buckets : List (Nat × List Locality)) (locality : Locality) :
    List (Nat × List Locality) :=
  match alookup buckets locality.priority with
  | some ls => ainsert buckets locality.priority (ls ++ [locality])
  | none => buckets ++ [(locality.priority, [locality])]

def bucketize (localities : List Locality) : List (Nat × List Locality) :=
  (localities.filter (fun l => l.weight ≠ 0)).foldl bucketAdd []

/-- The accumulator of the `for priority, newLocalities := range
newLocalitiesWithPriority` loop. -/
structure PriorityLoopAcc where
  st : EdsState
  priorityLowest : Option Nat
  priorityChanged : Bool
  ops : List EdsOp
deriving Repr

/-- One iteration of the priority loop of `handleEDSResponse`
(eds_impl.go lines 244-267).  `priorityLowest.higherThan p` holds when the
recorded lowest priority is numerically smaller than `p` (lower number =
higher priority), so the fold tracks the numerically largest priority. -/
def handlePriority (acc : PriorityLoopAcc) (bucket : Nat × List Locality) :
    PriorityLoopAcc :=
  let priority := bucket.1
  let newLocalities := bucket.2
  let priorityLowest :=
    match acc.priorityLowest with
    | none => some priority
    | some q => if q < priority then some priority else some q
  match alookup acc.st.priorityToLocalities priority with
  | some bgwc =>
    let (bgwc1, pOps) := handleEDSResponsePerPriority acc.st.subBalancerName
      priority bgwc newLocalities
    let m := ainsert acc.st.priorityToLocalities priority bgwc1
    { st := { acc.st with priorityToLocalities := m }
      priorityLowest := priorityLowest
      priorityChanged := acc.priorityChanged
      ops := acc.ops ++ pOps }
  | none =>
    -- First time this priority is received: create the balancer group (not
    -- started here); creation of the wrapper/aggregator/group is the
    -- newBalancerGroup event.
    let (bgwc1, pOps) := handleEDSResponsePerPriority acc.st.subBalancerName
      priority ⟨[]⟩ newLocalities
    let m := ainsert acc.st.priorityToLocalities priority bgwc1
    { st := { acc.st with priorityToLocalities := m }
      priorityLowest := priorityLowest
      priorityChanged := true
      ops := acc.ops ++ [.newBalancerGroup priority] ++ pOps }

/-- The priority deletion loop of `handleEDSResponse`
(eds_impl.go lines 272-280): delete priorities that are removed in the
latest response and close their balancer groups. -/
def removeStalePriorities (keep : List Nat) :
    List (Nat × BGWC) → List (Nat × BGWC) × Bool × List EdsOp
  | [] => ([], false, [])
  | (p, bgwc) :: rest =>
    let (m, removed, ops) := removeStalePriorities keep rest
    if p ∈ keep then ((p, bgwc) :: m, removed, ops)
    else (m, true, .bgClose p :: ops)

/-- The operations that create or destroy a child balancer / aggregator
entry or a whole balancer group; the idempotence claim says a repeated
update emits none of these. -/
def isChildChurnOp : EdsOp → Bool
  | .newBalancerGroup _ => true
  | .aggAdd _ _ _ => true
  | .bgAdd _ _ => true
  | .aggRemove _ _ => true
  | .bgRemove _ _ => true
  | .bgClose _ => true
  | _ => false

/-- `handleEDSResponse` (eds_impl.go lines 198-288). -/
def handleEDSResponse (st : EdsState) (edsResp : EndpointsUpdate) :
    EdsState × List EdsOp :=
  let firstOps :=
    if st.respReceived = false ∧ edsResp = ⟨[], []⟩ then
      [EdsOp.ccUpdateState .transientFailure (.errPicker errAllPrioritiesRemoved)]
    else []
  let st1 := { st with respReceived := true }
  let (st2, dropOps) := updateDrops st1 edsResp.drops
  let buckets := bucketize edsResp.localities
  let acc := buckets.foldl handlePriority
    { st := st2, priorityLowest := none, priorityChanged := false, ops := [] }
  let st3 := { acc.st with priorityLowest := acc.priorityLowest }
  let (m, removed, removeOps) :=
    removeStalePriorities (akeys buckets) st3.priorityToLocalities
  let st4 := { st3 with priorityToLocalities := m }
  let priorityChanged := acc.priorityChanged ∨ removed
  (st4,
   firstOps ++ dropOps ++ acc.ops ++ removeOps ++
     (if priorityChanged then [EdsOp.priorityChangeHandled] else []))

/-! ## Helper lemmas -/

theorem updateDrops_fst_respReceived (st : EdsState)
    (cfg : List OverloadDropConfig) :
    ((updateDrops st cfg).1).respReceived = st.respReceived := by
  unfold updateDrops
  split
  · rfl
  · dsimp only
    split <;> rfl

theorem handlePriority_st_respReceived (acc : PriorityLoopAcc)
    (b : Nat × List Locality) :
    ((handlePriority acc b).st).respReceived = acc.st.respReceived := by
  unfold handlePriority
  dsimp only
  cases alookup acc.st.priorityToLocalities b.1 <;> rfl

theorem foldl_handlePriority_respReceived (bs : List (Nat × List Locality))
    (acc : PriorityLoopAcc) :
    (((bs.foldl handlePriority acc)).st).respReceived = acc.st.respReceived := by
  induction bs generalizing acc with
  | nil => rfl
  | cons b rest ih =>
    rw [List.foldl_cons, ih, handlePriority_st_respReceived]

theorem handleEDSResponse_respReceived (st : EdsState) (resp : EndpointsUpdate) :
    ((handleEDSResponse st resp).1).respReceived = true := by
  show (_ : EdsState).respReceived = true
  unfold handleEDSResponse
  simp only
  rw [foldl_handlePriority_respReceived, updateDrops_fst_respReceived]

/-! ## Claim theorems (first batch) -/

/-- C3: if `handleEDSResponse` is called for the first time with a
structurally empty `EndpointsUpdate`, it publishes a TransientFailure state
whose picker returns the `errAllPrioritiesRemoved` error on every pick; the
"response received" flag is set by every call regardless of emptiness, so a
second empty update publishes nothing. -/
theorem handleEDSResponse_first_empty_update :
    (handleEDSResponse initialEdsState ⟨[], []⟩).2 =
      [.ccUpdateState .transientFailure (.errPicker errAllPrioritiesRemoved)] ∧
    (∀ info : Nat, errPickerPick errAllPrioritiesRemoved info =
      .error errAllPrioritiesRemoved) ∧
    (∀ (st : EdsState) (resp : EndpointsUpdate),
      ((handleEDSResponse st resp).1).respReceived = true) ∧
    (handleEDSResponse (handleEDSResponse initialEdsState ⟨[], []⟩).1 ⟨[], []⟩).2
      = [] := by
  refine ⟨rfl, fun _ => rfl, handleEDSResponse_respReceived, rfl⟩

/-- C9: on a freshly created service watcher (initial `rdsName` is the empty
string, no RDS watch started), a successful LDS update whose
`RouteConfigName` is the empty string invokes the service callback
immediately with the LDS config and a nil virtual host, and starts no RDS
watch, because the empty route name compares equal to the initial
`rdsName`. -/
theorem handleLDSResp_fresh_empty_route_name (name : String) (d : Nat)
    (fs : List String) :
    handleLDSResp (freshWatcher name) ⟨"", d, fs⟩ none =
      ({ freshWatcher name with
           lastUpdate := ⟨none, ⟨d, fs⟩⟩ },
       [.serviceCb ⟨none, ⟨d, fs⟩⟩ none]) := rfl

/-- C7: an LDS callback error of kind ResourceNotFound arriving while an RDS
watch is outstanding cancels the RDS watch, clears `rdsName` and
`lastUpdate`, and forwards the error to the service callback exactly once;
any other LDS error is forwarded without canceling the RDS watch and without
touching `rdsName` or `lastUpdate`. -/
theorem handleLDSResp_error_cases (w : WatcherState) (update : ListenerUpdate)
    (e : XdsError) (hclosed : w.closed = false) :
    (e.errType = .resourceNotFound ∧ w.rdsActive = true →
      handleLDSResp w update (some e) =
        ({ w with rdsName := "", rdsActive := false,
                  lastUpdate := emptyServiceUpdate },
         [.rdsCancelCall,
          .serviceCb emptyServiceUpdate (some (.forwarded e))])) ∧
    (¬(e.errType = .resourceNotFound ∧ w.rdsActive = true) →
      handleLDSResp w update (some e) =
        (w, [.serviceCb emptyServiceUpdate (some (.forwarded e))])) := by
  constructor
  · intro h
    unfold handleLDSResp
    rw [hclosed]
    simp only [Bool.false_eq_true, if_false]
    rw [if_pos]
    exact ⟨h.1, by rw [h.2]⟩
  · intro h
    unfold handleLDSResp
    rw [hclosed]
    simp only [Bool.false_eq_true, if_false]
    rw [if_neg]
    intro hcon
    exact h ⟨hcon.1, by
      have := hcon.2
      revert this
      cases w.rdsActive <;> simp⟩

/-- C7 witness: a concrete watcher with an outstanding RDS watch receiving a
ResourceNotFound error, and the same watcher receiving an unrelated error. -/
theorem handleLDSResp_error_cases_witness :
    (handleLDSResp
        { serviceName := "svc", closed := false, rdsName := "route",
          rdsActive := true,
          lastUpdate := ⟨none, ⟨7, []⟩⟩ }
        ⟨"", 0, []⟩ (some ⟨.resourceNotFound, "gone"⟩) =
      ({ serviceName := "svc", closed := false, rdsName := "",
         rdsActive := false, lastUpdate := emptyServiceUpdate },
       [.rdsCancelCall,
        .serviceCb emptyServiceUpdate
          (some (.forwarded ⟨.resourceNotFound, "gone"⟩))])) ∧
    (handleLDSResp
        { serviceName := "svc", closed := false, rdsName := "route",
          rdsActive := true,
          lastUpdate := ⟨none, ⟨7, []⟩⟩ }
        ⟨"", 0, []⟩ (some ⟨.otherError, "boom"⟩) =
      ({ serviceName := "svc", closed := false, rdsName := "route",
         rdsActive := true, lastUpdate := ⟨none, ⟨7, []⟩⟩ },
       [.serviceCb emptyServiceUpdate
          (some (.forwarded ⟨.otherError, "boom"⟩))])) := by
  constructor
  · exact (handleLDSResp_error_cases _ ⟨"", 0, []⟩ _ rfl).1 (by exact ⟨rfl, rfl⟩)
  · exact (handleLDSResp_error_cases _ ⟨"", 0, []⟩ _ rfl).2 (by
      intro h
      cases h.1)

/-- C10 (code bug): `FindEndpointsByListenerName` indexes
`rt.VirtualHosts[0]` when the virtual-host list is empty (the guard's `&&`
short-circuit evaluates the index inside the condition) and indexes
`Routes[0]` when the first virtual host has no routes (the guard is skipped
because its first operand is false), panicking in both cases instead of
returning the resource-not-found error. -/
theorem findEndpointsByListenerName_panics :
    findEndpointsByListenerName
        ⟨[("lis", ⟨"route", 0, []⟩)], [("route", ⟨[]⟩)], [], []⟩ "lis" =
      .error .panicIndexOutOfRange ∧
    findEndpointsByListenerName
        ⟨[("lis", ⟨"route", 0, []⟩)], [("route", ⟨[⟨["*"], []⟩]⟩)], [], []⟩
        "lis" =
      .error .panicIndexOutOfRange := ⟨rfl, rfl⟩

/-- The first dropper whose roll is true yields that dropper's category. -/
theorem firstDrop_eq_some_of_rolls (dps : List Dropper) (rolls : List Bool)
    (i : Nat) (hi : i < dps.length) (hri : i < rolls.length)
    (hfalse : ∀ j (hj : j < rolls.length), j < i → rolls.get ⟨j, hj⟩ = false)
    (htrue : rolls.get ⟨i, hri⟩ = true) :
    firstDrop dps rolls = some ((dps.get ⟨i, hi⟩).c.category) := by
  induction dps generalizing rolls i with
  | nil => exact absurd hi (by simp)
  | cons dp dps ih =>
    cases rolls with
    | nil => exact absurd hri (by simp)
    | cons r rolls =>
      cases i with
      | zero =>
        have : r = true := htrue
        rw [this]
        rfl
      | succ i =>
        have hr0 : r = false :=
          hfalse 0 (by simp) (Nat.succ_pos i)
        rw [hr0]
        show firstDrop dps rolls = _
        exact ih rolls i (Nat.lt_of_succ_lt_succ hi)
          (Nat.lt_of_succ_lt_succ hri)
          (fun j hj hji =>
            hfalse (j + 1) (Nat.succ_lt_succ hj) (Nat.succ_lt_succ hji))
          htrue

/-- C1: when the service-request counter is configured and `StartRequest`
succeeds, exactly one `EndRequest` happens on every exit path of
`dropPicker.Pick`: on an inner pick error the counter's `EndRequest` is
called synchronously (the in-flight count returns to its starting value
before the error is returned), and on success the returned done callback
performs exactly one `EndRequest`, before invoking the original done
callback when one exists. -/
theorem dropPickerPick_counter_conservation (d : DropPicker)
    (rolls : List Bool) (ctr : ServiceRequestsCounter)
    (hc : d.counter = some ctr)
    (hnodrop : firstDrop d.drops rolls = none)
    (hstart : ctr.numRequests + 1 ≤ d.countMax) :
    (∀ e : GError,
      dropPickerPick d rolls (.error e) =
        { res := .error e
          events := [.startRequestOk, .endRequestCall]
          counter := some ctr }) ∧
    (∀ pr : InnerPickResult,
      dropPickerPick d rolls (.ok pr) =
        { res := .ok { subConnId := pr.subConnId
                       doneSeq := .endRequestDone ::
                         (if pr.hasDone then [.innerDone] else []) }
          events := [.startRequestOk]
          counter := some { ctr with numRequests := ctr.numRequests + 1 } }) := by
  have hsr : startRequest ctr d.countMax =
      some { ctr with numRequests := ctr.numRequests + 1 } := by
    unfold startRequest
    rw [if_neg (by omega)]
  constructor
  · intro e
    unfold dropPickerPick
    rw [hnodrop, hc]
    dsimp only
    rw [hsr]
    rfl
  · intro pr
    unfold dropPickerPick
    rw [hnodrop, hc]
    dsimp only
    rw [hsr]

/-- C1 witness: one dropper rolling false, a fresh counter with capacity 1;
both the inner-error and the inner-success paths. -/
theorem dropPickerPick_counter_conservation_witness :
    dropPickerPick ⟨[newDropper ⟨"t", 1, 100⟩], true, some ⟨"svc", 0⟩, 1⟩
        [false] (.error ⟨.otherCode, "boom"⟩) =
      { res := .error ⟨.otherCode, "boom"⟩
        events := [.startRequestOk, .endRequestCall]
        counter := some ⟨"svc", 0⟩ } ∧
    dropPickerPick ⟨[newDropper ⟨"t", 1, 100⟩], true, some ⟨"svc", 0⟩, 1⟩
        [false] (.ok ⟨7, true⟩) =
      { res := .ok { subConnId := 7, doneSeq := [.endRequestDone, .innerDone] }
        events := [.startRequestOk]
        counter := some ⟨"svc", 1⟩ } := by
  constructor
  · exact (dropPickerPick_counter_conservation
      ⟨[newDropper ⟨"t", 1, 100⟩], true, some ⟨"svc", 0⟩, 1⟩
      [false] ⟨"svc", 0⟩ rfl rfl (by decide)).1 ⟨.otherCode, "boom"⟩
  · exact (dropPickerPick_counter_conservation
      ⟨[newDropper ⟨"t", 1, 100⟩], true, some ⟨"svc", 0⟩, 1⟩
      [false] ⟨"svc", 0⟩ rfl rfl (by decide)).2 ⟨7, true⟩

/-- C5: droppers are consulted in order before the counter and the inner
picker: `newDropper` builds a random-WRR over true with weight `numerator`
and false with weight `denominator - numerator`; the first dropper whose
roll is true makes the pick report the drop under that dropper's category
and return Unavailable "RPC is dropped" (independently of the inner picker,
with the counter untouched); a `StartRequest` failure reports a drop with
empty category and returns Unavailable. -/
theorem dropPickerPick_drop_order (d : DropPicker) (rolls : List Bool) :
    (∀ c : OverloadDropConfig,
      newDropper c =
        ⟨c, [⟨true, c.numerator⟩, ⟨false, c.denominator - c.numerator⟩]⟩) ∧
    (∀ (i : Nat) (hi : i < d.drops.length) (hri : i < rolls.length),
      (∀ j (hj : j < rolls.length), j < i → rolls.get ⟨j, hj⟩ = false) →
      rolls.get ⟨i, hri⟩ = true →
      d.hasLoadStore = true →
      ∀ inner : Except GError InnerPickResult,
        dropPickerPick d rolls inner =
          { res := .error ⟨.unavailable, "RPC is dropped"⟩
            events := [.callDropped ((d.drops.get ⟨i, hi⟩).c.category)]
            counter := d.counter }) ∧
    (∀ ctr : ServiceRequestsCounter,
      firstDrop d.drops rolls = none →
      d.counter = some ctr →
      ctr.numRequests + 1 > d.countMax →
      d.hasLoadStore = true →
      ∀ inner : Except GError InnerPickResult,
        dropPickerPick d rolls inner =
          { res := .error ⟨.unavailable, "max requests exceeded"⟩
            events := [.callDropped ""]
            counter := some ctr }) := by
  refine ⟨fun _ => rfl, ?_, ?_⟩
  · intro i hi hri hfalse htrue hls inner
    unfold dropPickerPick
    rw [firstDrop_eq_some_of_rolls d.drops rolls i hi hri hfalse htrue, hls]
    rfl
  · intro ctr hnodrop hc hfull hls inner
    unfold dropPickerPick
    rw [hnodrop, hc]
    dsimp only
    unfold startRequest
    rw [if_pos hfull, hls]
    rfl

/-- C5 witness: two droppers with the second rolling true, and a saturated
counter rejecting the request. -/
theorem dropPickerPick_drop_order_witness :
    newDropper ⟨"a", 30, 100⟩ = ⟨⟨"a", 30, 100⟩, [⟨true, 30⟩, ⟨false, 70⟩]⟩ ∧
    dropPickerPick ⟨[newDropper ⟨"a", 30, 100⟩, newDropper ⟨"b", 1, 100⟩],
        true, none, 0⟩ [false, true] (.ok ⟨3, false⟩) =
      { res := .error ⟨.unavailable, "RPC is dropped"⟩
        events := [.callDropped "b"]
        counter := none } ∧
    dropPickerPick ⟨[], true, some ⟨"svc", 2⟩, 2⟩ [] (.ok ⟨3, false⟩) =
      { res := .error ⟨.unavailable, "max requests exceeded"⟩
        events := [.callDropped ""]
        counter := some ⟨"svc", 2⟩ } := by
  refine ⟨(dropPickerPick_drop_order ⟨[], true, none, 0⟩ []).1 ⟨"a", 30, 100⟩,
    ?_, ?_⟩
  · exact (dropPickerPick_drop_order
      ⟨[newDropper ⟨"a", 30, 100⟩, newDropper ⟨"b", 1, 100⟩], true, none, 0⟩
      [false, true]).2.1 1 (by decide) (by decide)
      (by decide) (by decide) rfl (.ok ⟨3, false⟩)
  · exact (dropPickerPick_drop_order ⟨[], true, some ⟨"svc", 2⟩, 2⟩ []).2.2
      ⟨"svc", 2⟩ rfl rfl (by decide) rfl (.ok ⟨3, false⟩)

/-- `buildAddrs` keeps exactly the healthy/unknown endpoints, in order, and
attaches the weight attribute iff the child policy is weighted-round-robin
and the endpoint weight is non-zero. -/
theorem buildAddrs_eq_filter_map (sub : String) (eps : List Endpoint) :
    buildAddrs sub eps =
      (eps.filter (fun e =>
          e.healthStatus = .healthy ∨ e.healthStatus = .unknown)).map
        (fun e =>
          { addr := e.address
            weightAttr :=
              if sub = weightedRoundRobinName ∧ e.weight ≠ 0 then
                some e.weight
              else none }) := by
  induction eps with
  | nil => rfl
  | cons e eps ih =>
    unfold buildAddrs at ih ⊢
    rw [List.filterMap_cons, List.filter_cons]
    by_cases h : e.healthStatus = .healthy ∨ e.healthStatus = .unknown
    · have hbad : ¬(e.healthStatus ≠ EndpointHealthStatus.healthy ∧
          e.healthStatus ≠ EndpointHealthStatus.unknown) := by tauto
      have hfil : (decide (e.healthStatus = EndpointHealthStatus.healthy ∨
          e.healthStatus = EndpointHealthStatus.unknown)) = true := by
        simpa using h
      rw [if_neg hbad, if_pos hfil]
      dsimp only
      rw [List.map_cons, ih]
    · have hbad : e.healthStatus ≠ EndpointHealthStatus.healthy ∧
          e.healthStatus ≠ EndpointHealthStatus.unknown := by tauto
      have hfil : ¬((decide (e.healthStatus = EndpointHealthStatus.healthy ∨
          e.healthStatus = EndpointHealthStatus.unknown)) = true) := by
        simpa using h
      rw [if_pos hbad, if_neg hfil]
      exact ih

/-- Any `UpdateClientConnState` emitted by one locality iteration pushes the
built address list of that locality. -/
theorem handleLocality_ops_updateCC (sub : String) (p : Nat)
    (acc : PerPriorityAcc) (loc : Locality) (lid : LocalityID)
    (addrs : List AddressM)
    (h : EdsOp.bgUpdateClientConnState p lid addrs ∈
      (handleLocality sub p acc loc).ops) :
    EdsOp.bgUpdateClientConnState p lid addrs ∈ acc.ops ∨
      (loc.id = lid ∧ addrs = buildAddrs sub loc.endpoints) := by
  unfold handleLocality at h
  dsimp only at h
  cases hc : alookup acc.configs loc.id with
  | none =>
    rw [hc] at h
    simp only [List.mem_append, List.mem_cons, List.not_mem_nil, or_false] at h
    rcases h with h | h | h | h
    · exact Or.inl h
    · cases h
    · cases h
    · injection h with h1 h2 h3
      exact Or.inr ⟨h2.symm, h3⟩
  | some config =>
    rw [hc] at h
    dsimp only at h
    rw [List.append_assoc, List.mem_append] at h
    rcases h with h | h
    · exact Or.inl h
    · rw [List.mem_append] at h
      rcases h with h | h
      · split at h
        · have h1 := List.mem_singleton.mp h
          cases h1
        · exact absurd h (List.not_mem_nil _)
      · split at h
        · injection List.mem_singleton.mp h with h1 h2 h3
          exact Or.inr ⟨h2.symm, h3⟩
        · exact absurd h (List.not_mem_nil _)

/-- Lifted to the locality loop. -/
theorem handleLocality_fold_updateCC (sub : String) (p : Nat)
    (ls : List Locality) (acc : PerPriorityAcc) (lid : LocalityID)
    (addrs : List AddressM)
    (h : EdsOp.bgUpdateClientConnState p lid addrs ∈
      (ls.foldl (handleLocality sub p) acc).ops) :
    EdsOp.bgUpdateClientConnState p lid addrs ∈ acc.ops ∨
      ∃ loc ∈ ls, loc.id = lid ∧ addrs = buildAddrs sub loc.endpoints := by
  induction ls generalizing acc with
  | nil => exact Or.inl h
  | cons loc ls ih =>
    rcases ih (handleLocality sub p acc loc) h with h1 | ⟨loc1, hmem, hprop⟩
    · rcases handleLocality_ops_updateCC sub p acc loc lid addrs h1 with
        h2 | h2
      · exact Or.inl h2
      · exact Or.inr ⟨loc, List.mem_cons_self loc ls, h2⟩
    · exact Or.inr ⟨loc1, List.mem_cons_of_mem loc hmem, hprop⟩

/-- The stale-locality removal loop emits only remove operations. -/
theorem removeStaleLocalities_ops_no_updateCC (p : Nat)
    (newSet : List LocalityID) (cfgs : List (LocalityID × LocalityConfig))
    (lid : LocalityID) (addrs : List AddressM) :
    EdsOp.bgUpdateClientConnState p lid addrs ∉
      (removeStaleLocalities p newSet cfgs).2.2 := by
  induction cfgs with
  | nil => simp [removeStaleLocalities]
  | cons kv rest ih =>
    unfold removeStaleLocalities
    dsimp only
    split
    · exact ih
    · intro h
      rcases List.mem_cons.mp h with h1 | h1
      · cases h1
      · rcases List.mem_cons.mp h1 with h2 | h2
        · cases h2
        · exact ih h2

/-- C4: the address list forwarded to a locality's child balancer contains
exactly the endpoints whose health status is Healthy or Unknown, and an
address carries the weighted-round-robin weight attribute iff the child
policy is weighted-round-robin and the endpoint weight is non-zero (first
conjunct); every address list pushed by `handleEDSResponsePerPriority` to a
child balancer is built that way from the corresponding locality (second
conjunct). -/
theorem handleEDSResponsePerPriority_health_filter :
    (∀ (sub : String) (eps : List Endpoint),
      buildAddrs sub eps =
        (eps.filter (fun e =>
            e.healthStatus = .healthy ∨ e.healthStatus = .unknown)).map
          (fun e =>
            { addr := e.address
              weightAttr :=
                if sub = weightedRoundRobinName ∧ e.weight ≠ 0 then
                  some e.weight
                else none })) ∧
    (∀ (sub : String) (p : Nat) (bgwc : BGWC) (ls : List Locality)
        (lid : LocalityID) (addrs : List AddressM),
      EdsOp.bgUpdateClientConnState p lid addrs ∈
          (handleEDSResponsePerPriority sub p bgwc ls).2 →
      ∃ loc ∈ ls, loc.id = lid ∧ addrs = buildAddrs sub loc.endpoints) := by
  refine ⟨buildAddrs_eq_filter_map, ?_⟩
  intro sub p bgwc ls lid addrs h
  unfold handleEDSResponsePerPriority at h
  dsimp only at h
  rw [List.append_assoc, List.mem_append] at h
  rcases h with h | h
  · rcases handleLocality_fold_updateCC sub p ls _ lid addrs h with h1 | h1
    · cases h1
    · exact h1
  · rw [List.mem_append] at h
    rcases h with h | h
    · exact absurd h (removeStaleLocalities_ops_no_updateCC p _ _ lid addrs)
    · split at h
      · rcases List.mem_singleton.mp h with h1
        cases h1
      · cases h

/-- C4 witness: one locality with a healthy and a draining endpoint; the
pushed address list is the filtered one. -/
theorem handleEDSResponsePerPriority_health_filter_witness :
    ∃ loc ∈ [Locality.mk ⟨"r", "z", "s"⟩
        [⟨"a", .healthy, 2⟩, ⟨"b", .draining, 9⟩] 5 0],
      loc.id = ⟨"r", "z", "s"⟩ ∧
        [AddressM.mk "a" none] = buildAddrs roundRobinName loc.endpoints :=
  handleEDSResponsePerPriority_health_filter.2 roundRobinName 0 ⟨[]⟩
    [Locality.mk ⟨"r", "z", "s"⟩ [⟨"a", .healthy, 2⟩, ⟨"b", .draining, 9⟩] 5 0]
    ⟨"r", "z", "s"⟩ [AddressM.mk "a" none] (by decide)

/-- The locality loop fails exactly when some locality has no ID. -/
theorem parseLocalitiesLoop_eq_none_iff (ls : List ProtoLocalityLbEndpoints)
    (ps : List Nat) (acc : List Locality) :
    parseLocalitiesLoop ls ps acc = none ↔ ∃ l ∈ ls, l.locality = none := by
  induction ls generalizing ps acc with
  | nil => simp [parseLocalitiesLoop]
  | cons l rest ih =>
    unfold parseLocalitiesLoop
    cases hl : l.locality with
    | none =>
      exact iff_of_true rfl ⟨l, List.mem_cons_self l rest, hl⟩
    | some lid =>
      dsimp only
      rw [ih]
      constructor
      · rintro ⟨x, hx, hxl⟩
        exact ⟨x, List.mem_cons_of_mem l hx, hxl⟩
      · rintro ⟨x, hx, hxl⟩
        rcases List.mem_cons.mp hx with rfl | hx2
        · rw [hl] at hxl
          cases hxl
        · exact ⟨x, hx2, hxl⟩

/-- When every locality has an ID, the locality loop returns the collected
distinct priorities and the parsed localities. -/
theorem parseLocalitiesLoop_eq_some (ls : List ProtoLocalityLbEndpoints)
    (ps : List Nat) (acc : List Locality)
    (hno : ∀ l ∈ ls, l.locality ≠ none) :
    parseLocalitiesLoop ls ps acc =
      some
        (ls.foldl
          (fun ps l => if l.priority ∈ ps then ps else ps ++ [l.priority]) ps,
         acc ++ ls.map (fun l =>
           { id := l.locality.getD ⟨"", "", ""⟩
             endpoints := parseEndpoints l.lbEndpoints
             weight := l.loadBalancingWeight
             priority := l.priority })) := by
  induction ls generalizing ps acc with
  | nil => simp [parseLocalitiesLoop]
  | cons l rest ih =>
    cases hl : l.locality with
    | none => exact absurd hl (hno l (List.mem_cons_self l rest))
    | some lid =>
      unfold parseLocalitiesLoop
      rw [hl]
      dsimp only
      rw [ih _ _ (fun x hx => hno x (List.mem_cons_of_mem l hx))]
      rw [List.foldl_cons, List.map_cons, hl]
      simp [List.append_assoc]

/-- The distinct-priorities fold preserves `Nodup`. -/
theorem prioritiesFold_nodup (ls : List ProtoLocalityLbEndpoints)
    (ps : List Nat) (h : ps.Nodup) :
    (ls.foldl
      (fun ps l => if l.priority ∈ ps then ps else ps ++ [l.priority])
      ps).Nodup := by
  induction ls generalizing ps with
  | nil => exact h
  | cons l rest ih =>
    rw [List.foldl_cons]
    apply ih
    by_cases hm : l.priority ∈ ps
    · rw [if_pos hm]
      exact h
    · rw [if_neg hm]
      refine List.Nodup.append h (List.nodup_singleton _) ?_
      intro x hx hx2
      rw [List.mem_singleton] at hx2
      subst hx2
      exact hm hx

/-- For a duplicate-free list, the one-sided dense check of
`parseEDSRespProto` is equivalent to the set of priorities being exactly the
dense prefix of its size. -/
theorem prioritiesDense_iff_of_nodup (ps : List Nat) (h : ps.Nodup) :
    prioritiesDense ps = true ↔ (∀ p, p ∈ ps ↔ p < ps.length) := by
  unfold prioritiesDense
  rw [List.all_eq_true]
  constructor
  · intro hall
    have hsub : Finset.range ps.length ⊆ ps.toFinset := by
      intro x hx
      rw [Finset.mem_range] at hx
      rw [List.mem_toFinset]
      have := hall x (List.mem_range.mpr hx)
      simpa using this
    have hcard : ps.toFinset.card = ps.length := List.toFinset_card_of_nodup h
    have heq : Finset.range ps.length = ps.toFinset :=
      Finset.eq_of_subset_of_card_le hsub (by rw [hcard, Finset.card_range])
    intro p
    constructor
    · intro hp
      have : p ∈ ps.toFinset := List.mem_toFinset.mpr hp
      rw [← heq, Finset.mem_range] at this
      exact this
    · intro hp
      have := hall p (List.mem_range.mpr hp)
      simpa using this
  · intro hiff i hi
    rw [List.mem_range] at hi
    simpa using (hiff i).mpr hi

/-- C6: `parseEDSRespProto` fails (returning the empty update and an error)
iff some locality has no locality ID or the set of distinct priorities is
not exactly the dense prefix `{0, ..., n-1}` of its size; otherwise it
returns the parsed drops and every locality's ID, endpoints, weight and
priority. -/
theorem parseEDSRespProto_malformed (m : ClusterLoadAssignment) :
    ((parseEDSRespProto m).2 = true ↔
      (∃ l ∈ m.endpoints, l.locality = none) ∨
        ¬(∀ p, p ∈ claPriorities m ↔ p < (claPriorities m).length)) ∧
    ((parseEDSRespProto m).2 = true → (parseEDSRespProto m).1 = ⟨[], []⟩) ∧
    ((parseEDSRespProto m).2 = false →
      (parseEDSRespProto m).1 =
        ⟨m.dropOverloads.map parseDropPolicy,
         m.endpoints.map (fun l =>
           { id := l.locality.getD ⟨"", "", ""⟩
             endpoints := parseEndpoints l.lbEndpoints
             weight := l.loadBalancingWeight
             priority := l.priority })⟩) := by
  by_cases hnil : ∃ l ∈ m.endpoints, l.locality = none
  · have hloop : parseLocalitiesLoop m.endpoints [] [] = none :=
      (parseLocalitiesLoop_eq_none_iff _ _ _).mpr hnil
    unfold parseEDSRespProto
    rw [hloop]
    exact ⟨iff_of_true rfl (Or.inl hnil), fun _ => rfl, fun hfalse => by cases hfalse⟩
  · have hno : ∀ l ∈ m.endpoints, l.locality ≠ none := by
      intro l hl hcon
      exact hnil ⟨l, hl, hcon⟩
    have hloop := parseLocalitiesLoop_eq_some m.endpoints [] [] hno
    have hps : (m.endpoints.foldl
        (fun ps l => if l.priority ∈ ps then ps else ps ++ [l.priority]) []) =
        claPriorities m := rfl
    have hnodup : (claPriorities m).Nodup := by
      rw [← hps]
      exact prioritiesFold_nodup m.endpoints [] List.nodup_nil
    unfold parseEDSRespProto
    rw [hloop, hps]
    dsimp only
    by_cases hd : prioritiesDense (claPriorities m) = true
    · rw [if_pos hd]
      refine ⟨?_, ?_, ?_⟩
      · apply iff_of_false (by simp)
        rintro (hcon | hcon)
        · exact hnil hcon
        · exact hcon ((prioritiesDense_iff_of_nodup _ hnodup).mp hd)
      · intro htrue
        exact absurd htrue (by simp)
      · intro _
        dsimp only
        rw [List.nil_append]
    · rw [if_neg hd]
      refine ⟨?_, ?_, ?_⟩
      · apply iff_of_true rfl
        refine Or.inr ?_
        intro hcon
        exact hd ((prioritiesDense_iff_of_nodup _ hnodup).mpr hcon)
      · intro _
        rfl
      · intro hfalse
        exact absurd hfalse (by simp)

/-- C6 witness: a well-formed assignment with priorities 0 and 1 parses
successfully into its localities; the dense-prefix failure and the nil
locality are exercised through the iff on concrete malformed inputs. -/
theorem parseEDSRespProto_malformed_witness :
    (parseEDSRespProto
        ⟨[⟨"c", 50, .hundred⟩],
         [⟨some ⟨"r", "z", "s"⟩, [⟨.healthy, "h", 80, 3⟩], 5, 0⟩,
          ⟨some ⟨"r", "z", "t"⟩, [], 2, 1⟩]⟩).1 =
      ⟨[⟨"c", 50, 100⟩],
       [⟨⟨"r", "z", "s"⟩, [⟨"h:80", .healthy, 3⟩], 5, 0⟩,
        ⟨⟨"r", "z", "t"⟩, [], 2, 1⟩]⟩ ∧
    (parseEDSRespProto
        ⟨[], [⟨some ⟨"r", "z", "s"⟩, [], 5, 0⟩,
              ⟨some ⟨"r", "z", "t"⟩, [], 2, 2⟩]⟩).1 = ⟨[], []⟩ := by
  constructor
  · exact (parseEDSRespProto_malformed
      ⟨[⟨"c", 50, .hundred⟩],
       [⟨some ⟨"r", "z", "s"⟩, [⟨.healthy, "h", 80, 3⟩], 5, 0⟩,
        ⟨some ⟨"r", "z", "t"⟩, [], 2, 1⟩]⟩).2.2 (by decide)
  · exact (parseEDSRespProto_malformed
      ⟨[], [⟨some ⟨"r", "z", "s"⟩, [], 5, 0⟩,
            ⟨some ⟨"r", "z", "t"⟩, [], 2, 2⟩]⟩).2.1 (by decide)

/-! ### Domain matcher: code loop = spec selection -/

theorem matchDomain_fst (d host : String) :
    (matchDomain d host).1 = matchTypeForDomain d := by
  unfold matchDomain
  cases h : matchTypeForDomain d <;> rfl

theorem matchDomain_matched_ne_invalid (d host : String)
    (hm : (matchDomain d host).2 = true) :
    matchTypeForDomain d ≠ .invalid := by
  intro hc
  unfold matchDomain at hm
  rw [hc] at hm
  cases hm

theorem rankInjective (a b : DomainMatchType) (h : a.rank = b.rank) : a = b := by
  cases a <;> cases b <;> first | rfl | exact absurd h (by decide)

/-- The code's "keep the current best" test is the negation of a strict
lexicographic comparison on (kind rank, pattern length). -/
theorem betterThan_or_iff_not_lt (T0 T : DomainMatchType) (L0 L : Nat) :
    (T0.betterThan T ∨ (T0 = T ∧ L0 ≥ L)) ↔
      ¬(toLex (T0.rank, L0) < toLex (T.rank, L)) := by
  rw [Prod.Lex.lt_iff]
  dsimp only
  unfold DomainMatchType.betterThan
  constructor
  · rintro (h | ⟨rfl, h⟩)
    · rintro (h2 | ⟨h2, h3⟩) <;> omega
    · rintro (h2 | ⟨h2, h3⟩) <;> omega
  · intro h
    by_cases hr : T0.rank = T.rank
    · refine Or.inr ⟨rankInjective T0 T hr, ?_⟩
      by_contra hlen
      exact h (Or.inr ⟨hr, by omega⟩)
    · refine Or.inl ?_
      have h1 : ¬(T0.rank < T.rank) := fun hc => h (Or.inl hc)
      omega

theorem bestStep_eq_none (host : String) (c : VirtualHost × String)
    (acc : BestAcc) (h : matchTypeForDomain c.2 = .invalid) :
    bestStep host c.1 acc c.2 = none := by
  unfold bestStep
  dsimp only
  rw [if_pos (by rw [matchDomain_fst]; exact h)]

theorem bestStep_eq_some (host : String) (c : VirtualHost × String)
    (acc : BestAcc) (h : matchTypeForDomain c.2 ≠ .invalid) :
    bestStep host c.1 acc c.2 = some (stepPure host acc c) := by
  unfold bestStep stepPure
  dsimp only
  rw [if_neg (by rw [matchDomain_fst]; exact h)]
  split_ifs <;> rfl

theorem domainsLoop_eq_candLoop (host : String) (vh : VirtualHost)
    (ds : List String) (acc : BestAcc) :
    domainsLoop host vh ds acc =
      candLoop host (ds.map (fun d => (vh, d))) acc := by
  induction ds generalizing acc with
  | nil => rfl
  | cons d ds ih =>
    rw [List.map_cons]
    unfold domainsLoop candLoop
    dsimp only
    cases bestStep host vh acc d with
    | none => rfl
    | some acc1 => exact ih acc1

theorem candLoop_append (host : String) (cs1 cs2 : List (VirtualHost × String))
    (acc : BestAcc) :
    candLoop host (cs1 ++ cs2) acc =
      match candLoop host cs1 acc with
      | none => none
      | some acc1 => candLoop host cs2 acc1 := by
  induction cs1 generalizing acc with
  | nil => rfl
  | cons c cs1 ih =>
    rw [List.cons_append]
    cases h : bestStep host c.1 acc c.2 with
    | none => simp only [candLoop, h]
    | some acc1 =>
      simp only [candLoop, h]
      exact ih acc1

theorem vhostsLoop_eq_candLoop (host : String) (vhs : List VirtualHost)
    (acc : BestAcc) :
    vhostsLoop host vhs acc = candLoop host (vhCandidates vhs) acc := by
  induction vhs generalizing acc with
  | nil => rfl
  | cons vh vhs ih =>
    unfold vhostsLoop vhCandidates
    rw [List.flatMap_cons, candLoop_append, domainsLoop_eq_candLoop]
    cases candLoop host (vh.domains.map (fun d => (vh, d))) acc with
    | none => rfl
    | some acc1 => exact ih acc1

theorem candLoop_of_invalid (host : String) (cs : List (VirtualHost × String))
    (acc : BestAcc) (hinv : ∃ c ∈ cs, matchTypeForDomain c.2 = .invalid) :
    candLoop host cs acc = none := by
  induction cs generalizing acc with
  | nil =>
    rcases hinv with ⟨c, hc, _⟩
    exact absurd hc (List.not_mem_nil c)
  | cons c cs ih =>
    by_cases hc : matchTypeForDomain c.2 = .invalid
    · unfold candLoop
      rw [bestStep_eq_none host c acc hc]
    · unfold candLoop
      rw [bestStep_eq_some host c acc hc]
      refine ih _ ?_
      rcases hinv with ⟨x, hx, hxinv⟩
      rcases List.mem_cons.mp hx with rfl | hx2
      · exact absurd hxinv hc
      · exact ⟨x, hx2, hxinv⟩

theorem candLoop_of_no_invalid (host : String)
    (cs : List (VirtualHost × String)) (acc : BestAcc)
    (hno : ∀ c ∈ cs, matchTypeForDomain c.2 ≠ .invalid) :
    candLoop host cs acc = some (cs.foldl (stepPure host) acc) := by
  induction cs generalizing acc with
  | nil => rfl
  | cons c cs ih =>
    unfold candLoop
    rw [bestStep_eq_some host c acc (hno c (List.mem_cons_self c cs))]
    rw [List.foldl_cons]
    exact ih _ (fun x hx => hno x (List.mem_cons_of_mem c hx))

theorem foldl_stepPure_filter (host : String)
    (cs : List (VirtualHost × String)) (acc : BestAcc) :
    cs.foldl (stepPure host) acc =
      (cs.filter (fun c => (matchDomain c.2 host).2)).foldl
        (stepPure host) acc := by
  induction cs generalizing acc with
  | nil => rfl
  | cons c cs ih =>
    rw [List.foldl_cons, List.filter_cons]
    by_cases hm : (matchDomain c.2 host).2 = true
    · rw [if_pos hm, List.foldl_cons]
      exact ih _
    · rw [if_neg hm]
      have hf : (matchDomain c.2 host).2 = false := by
        revert hm
        cases (matchDomain c.2 host).2 <;> simp
      have hstep : stepPure host acc c = acc := by
        unfold stepPure
        dsimp only
        rw [if_pos (Or.inr (Or.inr hf))]
      rw [hstep]
      exact ih acc

/-- The code's skip test over a current-best candidate, as a `candKey`
comparison. -/
theorem skip_iff_key (host : String) (c0 c : VirtualHost × String)
    (hm : (matchDomain c.2 host).2 = true) :
    ((matchTypeForDomain c0.2).betterThan (matchDomain c.2 host).1 ∨
        (matchTypeForDomain c0.2 = (matchDomain c.2 host).1 ∧
          c0.2.length ≥ c.2.length) ∨
        (matchDomain c.2 host).2 = false) ↔
      ¬(candKey c0 < candKey c) := by
  rw [matchDomain_fst, hm]
  have htf : (true = false) ↔ False := by simp
  rw [htf, or_false]
  exact betterThan_or_iff_not_lt (matchTypeForDomain c0.2)
    (matchTypeForDomain c.2) c0.2.length c.2.length

theorem stepPure_eq_accOf_argAux (host : String) (c : VirtualHost × String)
    (hm : (matchDomain c.2 host).2 = true)
    (o : Option (VirtualHost × String)) :
    stepPure host (accOf o) c =
      accOf (List.argAux (fun b c1 => candKey c1 < candKey b) o c) := by
  cases o with
  | none =>
    show stepPure host ⟨none, .invalid, 0⟩ c = accOf (some c)
    unfold stepPure
    dsimp only
    rw [if_neg]
    · unfold accOf
      rw [matchDomain_fst]
    · rintro (h | h | h)
      · revert h
        unfold DomainMatchType.betterThan
        dsimp only [DomainMatchType.rank]
        omega
      · have := h.1
        rw [matchDomain_fst] at this
        exact matchDomain_matched_ne_invalid c.2 host hm this.symm
      · rw [hm] at h
        cases h
  | some c0 =>
    show stepPure host (accOf (some c0)) c =
      accOf (if candKey c0 < candKey c then some c else some c0)
    by_cases hlt : candKey c0 < candKey c
    · rw [if_pos hlt]
      unfold stepPure accOf
      dsimp only
      rw [if_neg (fun h => (skip_iff_key host c0 c hm).mp h hlt)]
      rw [matchDomain_fst]
    · rw [if_neg hlt]
      unfold stepPure accOf
      dsimp only
      rw [if_pos ((skip_iff_key host c0 c hm).mpr hlt)]

theorem foldl_stepPure_eq_argAux (host : String)
    (cs : List (VirtualHost × String))
    (hm : ∀ c ∈ cs, (matchDomain c.2 host).2 = true)
    (o : Option (VirtualHost × String)) :
    cs.foldl (stepPure host) (accOf o) =
      accOf (cs.foldl (List.argAux (fun b c1 => candKey c1 < candKey b)) o) := by
  induction cs generalizing o with
  | nil => rfl
  | cons c cs ih =>
    rw [List.foldl_cons, List.foldl_cons,
      stepPure_eq_accOf_argAux host c (hm c (List.mem_cons_self c cs)) o]
    exact ih (fun x hx => hm x (List.mem_cons_of_mem c hx)) _

/-- C2: `findBestMatchingVirtualHost` is a pure function (hence
deterministic) and coincides with the spec-side selection: if any pattern
anywhere is invalid the result is nil, otherwise the result is the first
candidate maximizing (kind rank, pattern length) lexicographically among the
matched candidates — kind priority Exact > Suffix > Prefix > Universal,
longer pattern wins within a kind, first-seen wins ties. -/
theorem findBestMatchingVirtualHost_eq_spec (host : String)
    (vHosts : List VirtualHost) :
    findBestMatchingVirtualHost host vHosts =
      specFindBestMatchingVirtualHost host vHosts := by
  unfold findBestMatchingVirtualHost specFindBestMatchingVirtualHost
  dsimp only
  rw [vhostsLoop_eq_candLoop]
  by_cases hinv : ∃ c ∈ vhCandidates vHosts, matchTypeForDomain c.2 = .invalid
  · rw [candLoop_of_invalid host _ _ hinv, if_pos hinv]
  · have hno : ∀ c ∈ vhCandidates vHosts, matchTypeForDomain c.2 ≠ .invalid :=
      fun c hc hcon => hinv ⟨c, hc, hcon⟩
    rw [candLoop_of_no_invalid host _ _ hno, if_neg hinv]
    rw [foldl_stepPure_filter]
    have hm : ∀ c ∈ (vhCandidates vHosts).filter
        (fun c => (matchDomain c.2 host).2), (matchDomain c.2 host).2 = true :=
      fun c hc => (List.mem_filter.mp hc).2
    rw [show (⟨none, .invalid, 0⟩ : BestAcc) = accOf none from rfl,
      foldl_stepPure_eq_argAux host _ hm none]
    rw [show List.argmax candKey ((vhCandidates vHosts).filter
        (fun c => (matchDomain c.2 host).2)) =
      ((vhCandidates vHosts).filter (fun c => (matchDomain c.2 host).2)).foldl
        (List.argAux (fun b c1 => candKey c1 < candKey b)) none from rfl]
    cases ((vhCandidates vHosts).filter (fun c => (matchDomain c.2 host).2)).foldl
        (List.argAux (fun b c1 => candKey c1 < candKey b)) none with
    | none => rfl
    | some c => rfl

/-! ### Association-list lemmas -/

section AssocLemmas

variable {K V : Type} [DecidableEq K]

theorem alookup_cons_self (k : K) (v : V) (l : List (K × V)) :
    alookup ((k, v) :: l) k = some v := by
  unfold alookup
  rw [if_pos rfl]

theorem alookup_cons_ne (kv : K × V) (l : List (K × V)) (k : K)
    (h : kv.1 ≠ k) : alookup (kv :: l) k = alookup l k := by
  unfold alookup
  rw [if_neg h]
  cases l <;> rfl

theorem alookup_isSome_iff_mem_akeys (l : List (K × V)) (k : K) :
    (alookup l k).isSome ↔ k ∈ akeys l := by
  induction l with
  | nil => simp [alookup, akeys]
  | cons kv rest ih =>
    unfold alookup akeys
    by_cases h : kv.1 = k
    · rw [if_pos h]
      simp [h]
    · rw [if_neg h]
      rw [List.map_cons, List.mem_cons]
      unfold akeys at ih
      rw [ih]
      constructor
      · exact Or.inr
      · rintro (hk | hk)
        · exact absurd hk.symm h
        · exact hk

theorem alookup_ainsert_self (l : List (K × V)) (k : K) (v : V) :
    alookup (ainsert l k v) k = some v := by
  induction l with
  | nil => exact alookup_cons_self k v []
  | cons kv rest ih =>
    unfold ainsert
    by_cases h : kv.1 = k
    · rw [if_pos h]
      exact alookup_cons_self k v rest
    · rw [if_neg h, alookup_cons_ne kv _ k h]
      exact ih

theorem alookup_ainsert_ne (l : List (K × V)) (k : K) (v : V) (x : K)
    (h : x ≠ k) : alookup (ainsert l k v) x = alookup l x := by
  induction l with
  | nil =>
    show alookup [(k, v)] x = none
    rw [alookup_cons_ne (k, v) [] x (fun hc => h hc.symm)]
    rfl
  | cons kv rest ih =>
    unfold ainsert
    by_cases hk : kv.1 = k
    · rw [if_pos hk, alookup_cons_ne (k, v) rest x (fun hc => h hc.symm)]
      rw [alookup_cons_ne kv rest x (by rw [hk]; exact fun hc => h hc.symm)]
    · rw [if_neg hk]
      by_cases hx : kv.1 = x
      · unfold alookup
        rw [if_pos hx, if_pos hx]
      · rw [alookup_cons_ne kv _ x hx, alookup_cons_ne kv _ x hx]
        exact ih

theorem mem_akeys_ainsert (l : List (K × V)) (k : K) (v : V) (x : K) :
    x ∈ akeys (ainsert l k v) ↔ x = k ∨ x ∈ akeys l := by
  induction l with
  | nil => simp [ainsert, akeys]
  | cons kv rest ih =>
    unfold ainsert
    by_cases h : kv.1 = k
    · rw [if_pos h]
      unfold akeys
      rw [List.map_cons, List.map_cons, List.mem_cons, List.mem_cons, h]
      dsimp only
      tauto
    · rw [if_neg h]
      unfold akeys
      rw [List.map_cons, List.mem_cons]
      unfold akeys at ih
      rw [ih, List.map_cons, List.mem_cons]
      tauto

theorem akeys_ainsert_of_present (l : List (K × V)) (k : K) (v : V)
    (h : (alookup l k).isSome) : akeys (ainsert l k v) = akeys l := by
  induction l with
  | nil => simp [alookup] at h
  | cons kv rest ih =>
    unfold ainsert
    by_cases hk : kv.1 = k
    · rw [if_pos hk]
      unfold akeys
      rw [List.map_cons, List.map_cons, hk]
    · rw [if_neg hk]
      unfold akeys
      rw [List.map_cons, List.map_cons]
      unfold alookup at h
      rw [if_neg hk] at h
      unfold akeys at ih
      rw [ih h]

theorem akeys_ainsert_of_absent (l : List (K × V)) (k : K) (v : V)
    (h : alookup l k = none) : akeys (ainsert l k v) = akeys l ++ [k] := by
  induction l with
  | nil => rfl
  | cons kv rest ih =>
    unfold ainsert
    by_cases hk : kv.1 = k
    · unfold alookup at h
      rw [if_pos hk] at h
      cases h
    · rw [if_neg hk]
      unfold akeys
      rw [List.map_cons, List.map_cons]
      unfold alookup at h
      rw [if_neg hk] at h
      unfold akeys at ih
      rw [ih h, List.cons_append]

end AssocLemmas

theorem mem_akeys_cons {K V : Type} (kv : K × V) (l : List (K × V)) (x : K) :
    x ∈ akeys (kv :: l) ↔ x = kv.1 ∨ x ∈ akeys l := by
  unfold akeys
  rw [List.map_cons, List.mem_cons]

/-! ### Idempotence of `handleEDSResponse` (no add/remove on re-application) -/

theorem handleLocality_configs (sub : String) (p : Nat) (acc : PerPriorityAcc)
    (loc : Locality) :
    (handleLocality sub p acc loc).configs =
      ainsert acc.configs loc.id
        ⟨loc.weight, buildAddrs sub loc.endpoints⟩ := by
  unfold handleLocality
  dsimp only
  cases alookup acc.configs loc.id <;> rfl

theorem handleLocality_newSet (sub : String) (p : Nat) (acc : PerPriorityAcc)
    (loc : Locality) :
    (handleLocality sub p acc loc).newSet = acc.newSet ++ [loc.id] := by
  unfold handleLocality
  dsimp only
  cases alookup acc.configs loc.id <;> rfl

theorem foldl_handleLocality_keys (sub : String) (p : Nat)
    (ls : List Locality) (acc : PerPriorityAcc) (x : LocalityID) :
    x ∈ akeys ((ls.foldl (handleLocality sub p) acc).configs) ↔
      x ∈ akeys acc.configs ∨ x ∈ ls.map (fun l => l.id) := by
  induction ls generalizing acc with
  | nil => simp
  | cons loc ls ih =>
    rw [List.foldl_cons, ih, handleLocality_configs, mem_akeys_ainsert,
      List.map_cons, List.mem_cons]
    tauto

theorem foldl_handleLocality_newSet (sub : String) (p : Nat)
    (ls : List Locality) (acc : PerPriorityAcc) :
    ((ls.foldl (handleLocality sub p) acc)).newSet =
      acc.newSet ++ ls.map (fun l => l.id) := by
  induction ls generalizing acc with
  | nil => simp
  | cons loc ls ih =>
    rw [List.foldl_cons, ih, handleLocality_newSet, List.map_cons]
    simp [List.append_assoc]

theorem mem_akeys_removeStaleLocalities (p : Nat) (ns : List LocalityID)
    (cfgs : List (LocalityID × LocalityConfig)) (x : LocalityID) :
    x ∈ akeys (removeStaleLocalities p ns cfgs).1 ↔
      x ∈ akeys cfgs ∧ x ∈ ns := by
  induction cfgs with
  | nil => simp [removeStaleLocalities, akeys]
  | cons kv rest ih =>
    unfold removeStaleLocalities
    dsimp only
    by_cases hk : kv.1 ∈ ns
    · rw [if_pos hk]
      dsimp only
      rw [mem_akeys_cons, ih, mem_akeys_cons]
      constructor
      · rintro (rfl | ⟨h1, h2⟩)
        · exact ⟨Or.inl rfl, hk⟩
        · exact ⟨Or.inr h1, h2⟩
      · rintro ⟨h1 | h1, h2⟩
        · exact Or.inl h1
        · exact Or.inr ⟨h1, h2⟩
    · rw [if_neg hk]
      dsimp only
      rw [ih, mem_akeys_cons]
      constructor
      · rintro ⟨h1, h2⟩
        exact ⟨Or.inr h1, h2⟩
      · rintro ⟨h1 | h1, h2⟩
        · subst h1
          exact absurd h2 hk
        · exact ⟨h1, h2⟩

theorem removeStaleLocalities_all_kept (p : Nat) (ns : List LocalityID)
    (cfgs : List (LocalityID × LocalityConfig))
    (h : ∀ x ∈ akeys cfgs, x ∈ ns) :
    removeStaleLocalities p ns cfgs = (cfgs, false, []) := by
  induction cfgs with
  | nil => rfl
  | cons kv rest ih =>
    unfold removeStaleLocalities
    rw [ih (fun x hx => h x ((mem_akeys_cons kv rest x).mpr (Or.inr hx)))]
    dsimp only
    rw [if_pos (h kv.1 ((mem_akeys_cons kv rest kv.1).mpr (Or.inl rfl)))]

theorem handleEDSResponsePerPriority_keys (sub : String) (p : Nat)
    (bgwc : BGWC) (ls : List Locality) (x : LocalityID) :
    x ∈ akeys ((handleEDSResponsePerPriority sub p bgwc ls).1.configs) ↔
      x ∈ ls.map (fun l => l.id) := by
  unfold handleEDSResponsePerPriority
  dsimp only
  rw [mem_akeys_removeStaleLocalities, foldl_handleLocality_keys,
    foldl_handleLocality_newSet]
  dsimp only
  rw [List.nil_append]
  tauto

theorem handleLocality_ops_of_mem (sub : String) (p : Nat)
    (acc : PerPriorityAcc) (loc : Locality)
    (hin : loc.id ∈ akeys acc.configs) :
    ∀ op ∈ (handleLocality sub p acc loc).ops,
      op ∈ acc.ops ∨ isChildChurnOp op = false := by
  have hs : (alookup acc.configs loc.id).isSome =
      (alookup acc.configs loc.id).isSome := rfl
  cases hc : alookup acc.configs loc.id with
  | none =>
    have := (alookup_isSome_iff_mem_akeys acc.configs loc.id).mpr hin
    rw [hc] at this
    simp at this
  | some config =>
    intro op hop
    unfold handleLocality at hop
    dsimp only at hop
    rw [hc] at hop
    dsimp only at hop
    rw [List.append_assoc, List.mem_append] at hop
    rcases hop with hop | hop
    · exact Or.inl hop
    · refine Or.inr ?_
      rw [List.mem_append] at hop
      rcases hop with hop | hop
      · split at hop
        · rw [List.mem_singleton] at hop
          subst hop
          rfl
        · exact absurd hop (List.not_mem_nil _)
      · split at hop
        · rw [List.mem_singleton] at hop
          subst hop
          rfl
        · exact absurd hop (List.not_mem_nil _)

theorem foldl_handleLocality_ops_nochurn (sub : String) (p : Nat)
    (ls : List Locality) (acc : PerPriorityAcc)
    (hin : ∀ loc ∈ ls, loc.id ∈ akeys acc.configs) :
    ∀ op ∈ (ls.foldl (handleLocality sub p) acc).ops,
      op ∈ acc.ops ∨ isChildChurnOp op = false := by
  induction ls generalizing acc with
  | nil =>
    intro op hop
    exact Or.inl hop
  | cons loc ls ih =>
    intro op hop
    rw [List.foldl_cons] at hop
    have hin2 : ∀ l2 ∈ ls, l2.id ∈ akeys (handleLocality sub p acc loc).configs := by
      intro l2 hl2
      rw [handleLocality_configs, mem_akeys_ainsert]
      exact Or.inr (hin l2 (List.mem_cons_of_mem loc hl2))
    rcases ih _ hin2 op hop with h1 | h1
    · exact handleLocality_ops_of_mem sub p acc loc
        (hin loc (List.mem_cons_self loc ls)) op h1
    · exact Or.inr h1

theorem handleEDSResponsePerPriority_ops_nochurn (sub : String) (p : Nat)
    (bgwc : BGWC) (ls : List Locality)
    (hkeys : ∀ x, x ∈ akeys bgwc.configs ↔ x ∈ ls.map (fun l => l.id)) :
    ∀ op ∈ (handleEDSResponsePerPriority sub p bgwc ls).2,
      isChildChurnOp op = false := by
  intro op hop
  unfold handleEDSResponsePerPriority at hop
  dsimp only at hop
  have hall : ∀ x ∈ akeys ((ls.foldl (handleLocality sub p)
      ⟨bgwc.configs, [], false, []⟩).configs),
      x ∈ (ls.foldl (handleLocality sub p)
        ⟨bgwc.configs, [], false, []⟩).newSet := by
    intro x hx
    rw [foldl_handleLocality_keys] at hx
    rw [foldl_handleLocality_newSet]
    dsimp only at hx ⊢
    rw [List.nil_append]
    rcases hx with hx | hx
    · exact (hkeys x).mp hx
    · exact hx
  rw [removeStaleLocalities_all_kept _ _ _ hall] at hop
  dsimp only at hop
  rw [List.append_assoc, List.mem_append] at hop
  rcases hop with hop | hop
  · have hin : ∀ loc ∈ ls, loc.id ∈ akeys
        (⟨bgwc.configs, [], false, []⟩ : PerPriorityAcc).configs := by
      intro loc hl
      exact (hkeys loc.id).mpr (List.mem_map_of_mem (fun l => l.id) hl)
    rcases foldl_handleLocality_ops_nochurn sub p ls _ hin op hop with h1 | h1
    · exact absurd h1 (List.not_mem_nil _)
    · exact h1
  · rw [List.mem_append] at hop
    rcases hop with hop | hop
    · exact absurd hop (List.not_mem_nil _)
    · split at hop
      · rw [List.mem_singleton] at hop
        subst hop
        rfl
      · exact absurd hop (List.not_mem_nil _)

theorem handlePriority_lookup_some (acc : PriorityLoopAcc)
    (b : Nat × List Locality) (bgwc : BGWC)
    (h : alookup acc.st.priorityToLocalities b.1 = some bgwc) :
    (handlePriority acc b).st.priorityToLocalities =
      ainsert acc.st.priorityToLocalities b.1
        (handleEDSResponsePerPriority acc.st.subBalancerName b.1 bgwc b.2).1 ∧
    (handlePriority acc b).ops = acc.ops ++
      (handleEDSResponsePerPriority acc.st.subBalancerName b.1 bgwc b.2).2 ∧
    (handlePriority acc b).priorityChanged = acc.priorityChanged := by
  unfold handlePriority
  dsimp only
  rw [h]
  exact ⟨rfl, rfl, rfl⟩

theorem handlePriority_st_map (acc : PriorityLoopAcc)
    (b : Nat × List Locality) :
    ∃ bgwc1 : BGWC,
      (handlePriority acc b).st.priorityToLocalities =
        ainsert acc.st.priorityToLocalities b.1 bgwc1 ∧
      ∀ x, (x ∈ akeys bgwc1.configs ↔ x ∈ b.2.map (fun l => l.id)) := by
  cases h : alookup acc.st.priorityToLocalities b.1 with
  | some bgwc =>
    exact ⟨(handleEDSResponsePerPriority acc.st.subBalancerName b.1 bgwc b.2).1,
      (handlePriority_lookup_some acc b bgwc h).1,
      fun x => handleEDSResponsePerPriority_keys _ _ _ _ x⟩
  | none =>
    refine ⟨(handleEDSResponsePerPriority acc.st.subBalancerName b.1 ⟨[]⟩ b.2).1,
      ?_, fun x => handleEDSResponsePerPriority_keys _ _ _ _ x⟩
    unfold handlePriority
    dsimp only
    rw [h]

theorem foldl_handlePriority_map_keys (bs : List (Nat × List Locality))
    (acc : PriorityLoopAcc) (x : Nat) :
    x ∈ akeys ((bs.foldl handlePriority acc).st.priorityToLocalities) ↔
      x ∈ akeys acc.st.priorityToLocalities ∨ x ∈ akeys bs := by
  induction bs generalizing acc with
  | nil => simp [akeys]
  | cons b bs ih =>
    rw [List.foldl_cons, ih]
    obtain ⟨bgwc1, hmap, _⟩ := handlePriority_st_map acc b
    rw [hmap, mem_akeys_ainsert, mem_akeys_cons]
    tauto

theorem foldl_handlePriority_lookup (bs : List (Nat × List Locality))
    (acc : PriorityLoopAcc) (hn : (akeys bs).Nodup) :
    (∀ p ls, alookup bs p = some ls →
      ∃ bgwc,
        alookup ((bs.foldl handlePriority acc).st.priorityToLocalities) p =
          some bgwc ∧
        ∀ x, (x ∈ akeys bgwc.configs ↔ x ∈ ls.map (fun l => l.id))) ∧
    (∀ p, p ∉ akeys bs →
      alookup ((bs.foldl handlePriority acc).st.priorityToLocalities) p =
        alookup acc.st.priorityToLocalities p) := by
  revert hn
  induction bs generalizing acc with
  | nil =>
    intro hn
    exact ⟨fun p ls h => absurd h (by simp [alookup]), fun p _ => rfl⟩
  | cons b bs ih =>
    intro hn
    have hcons : akeys (b :: bs) = b.1 :: akeys bs := rfl
    rw [hcons] at hn
    have hb : b.1 ∉ akeys bs := (List.nodup_cons.mp hn).1
    have hn2 : (akeys bs).Nodup := (List.nodup_cons.mp hn).2
    obtain ⟨bgwc1, hmap, hkeys1⟩ := handlePriority_st_map acc b
    constructor
    · intro p ls h
      by_cases hp : b.1 = p
      · subst hp
        have hself : alookup (b :: bs) b.1 = some b.2 := by
          unfold alookup
          rw [if_pos rfl]
        rw [hself] at h
        have hls : ls = b.2 := (Option.some.inj h).symm
        subst hls
        rw [List.foldl_cons, (ih _ hn2).2 b.1 hb, hmap, alookup_ainsert_self]
        exact ⟨bgwc1, rfl, hkeys1⟩
      · have h2 : alookup bs p = some ls := by
          rw [← alookup_cons_ne b bs p hp]
          exact h
        rw [List.foldl_cons]
        exact (ih _ hn2).1 p ls h2
    · intro p hp
      have hp1 : p ∉ akeys bs := by
        intro hc
        exact hp ((mem_akeys_cons b bs p).mpr (Or.inr hc))
      have hp2 : p ≠ b.1 := by
        intro hc
        exact hp ((mem_akeys_cons b bs p).mpr (Or.inl hc))
      rw [List.foldl_cons, (ih _ hn2).2 p hp1, hmap,
        alookup_ainsert_ne _ _ _ p hp2]

theorem removeStalePriorities_alookup (keep : List Nat)
    (m : List (Nat × BGWC)) (p : Nat) (hp : p ∈ keep) :
    alookup (removeStalePriorities keep m).1 p = alookup m p := by
  induction m with
  | nil => rfl
  | cons kv rest ih =>
    unfold removeStalePriorities
    dsimp only
    by_cases hk : kv.1 ∈ keep
    · rw [if_pos hk]
      dsimp only
      by_cases hkp : kv.1 = p
      · unfold alookup
        rw [if_pos hkp, if_pos hkp]
      · rw [alookup_cons_ne kv _ p hkp, alookup_cons_ne kv rest p hkp]
        exact ih
    · rw [if_neg hk]
      dsimp only
      have hne : kv.1 ≠ p := fun hc => hk (hc ▸ hp)
      rw [alookup_cons_ne kv rest p hne]
      exact ih

theorem mem_akeys_removeStalePriorities (keep : List Nat)
    (m : List (Nat × BGWC)) (x : Nat)
    (h : x ∈ akeys (removeStalePriorities keep m).1) : x ∈ keep := by
  induction m with
  | nil => simp [removeStalePriorities, akeys] at h
  | cons kv rest ih =>
    unfold removeStalePriorities at h
    dsimp only at h
    by_cases hk : kv.1 ∈ keep
    · rw [if_pos hk] at h
      dsimp only at h
      rcases (mem_akeys_cons kv _ x).mp h with rfl | h2
      · exact hk
      · exact ih h2
    · rw [if_neg hk] at h
      dsimp only at h
      exact ih h

theorem removeStalePriorities_all_kept (keep : List Nat)
    (m : List (Nat × BGWC)) (h : ∀ x ∈ akeys m, x ∈ keep) :
    removeStalePriorities keep m = (m, false, []) := by
  induction m with
  | nil => rfl
  | cons kv rest ih =>
    unfold removeStalePriorities
    rw [ih (fun x hx => h x ((mem_akeys_cons kv rest x).mpr (Or.inr hx)))]
    dsimp only
    rw [if_pos (h kv.1 ((mem_akeys_cons kv rest kv.1).mpr (Or.inl rfl)))]

theorem bucketAdd_keys_nodup (bs : List (Nat × List Locality)) (loc : Locality)
    (h : (akeys bs).Nodup) : (akeys (bucketAdd bs loc)).Nodup := by
  unfold bucketAdd
  cases hb : alookup bs loc.priority with
  | some ls =>
    rw [akeys_ainsert_of_present]
    · exact h
    · rw [hb]
      rfl
  | none =>
    have hkeys : akeys (bs ++ [(loc.priority, [loc])]) =
        akeys bs ++ [loc.priority] := by
      unfold akeys
      rw [List.map_append]
      rfl
    rw [hkeys]
    refine List.Nodup.append h (List.nodup_singleton _) ?_
    intro x hx hx2
    rw [List.mem_singleton] at hx2
    subst hx2
    have hs := (alookup_isSome_iff_mem_akeys bs loc.priority).mpr hx
    rw [hb] at hs
    simp at hs

theorem bucketize_keys_nodup (ls : List Locality) :
    (akeys (bucketize ls)).Nodup := by
  unfold bucketize
  generalize (ls.filter (fun l => l.weight ≠ 0)) = ls2
  have hgen : ∀ (l2 : List Locality) (bs : List (Nat × List Locality)),
      (akeys bs).Nodup → (akeys (l2.foldl bucketAdd bs)).Nodup := by
    intro l2
    induction l2 with
    | nil => exact fun bs h => h
    | cons loc rest ih =>
      intro bs h
      rw [List.foldl_cons]
      exact ih _ (bucketAdd_keys_nodup bs loc h)
  exact hgen ls2 [] List.nodup_nil

theorem updateDrops_fst_map (st : EdsState) (cfg : List OverloadDropConfig) :
    ((updateDrops st cfg).1).priorityToLocalities = st.priorityToLocalities := by
  unfold updateDrops
  split
  · rfl
  · dsimp only
    split <;> rfl

theorem updateDrops_ops_nochurn (st : EdsState) (cfg : List OverloadDropConfig) :
    ∀ op ∈ (updateDrops st cfg).2, isChildChurnOp op = false := by
  intro op hop
  unfold updateDrops at hop
  split at hop
  · exact absurd hop (List.not_mem_nil _)
  · dsimp only at hop
    split at hop
    · rw [List.mem_singleton] at hop
      subst hop
      rfl
    · exact absurd hop (List.not_mem_nil _)

theorem foldl_handlePriority_ops_nochurn (bs : List (Nat × List Locality))
    (acc : PriorityLoopAcc) (hn : (akeys bs).Nodup)
    (hg : ∀ p ls, alookup bs p = some ls →
      ∃ bgwc, alookup acc.st.priorityToLocalities p = some bgwc ∧
        ∀ x, (x ∈ akeys bgwc.configs ↔ x ∈ ls.map (fun l => l.id))) :
    ∀ op ∈ (bs.foldl handlePriority acc).ops,
      op ∈ acc.ops ∨ isChildChurnOp op = false := by
  revert hn hg
  induction bs generalizing acc with
  | nil =>
    intro hn hg op hop
    exact Or.inl hop
  | cons b bs ih =>
    intro hn hg op hop
    have hcons : akeys (b :: bs) = b.1 :: akeys bs := rfl
    rw [hcons] at hn
    have hb : b.1 ∉ akeys bs := (List.nodup_cons.mp hn).1
    have hn2 : (akeys bs).Nodup := (List.nodup_cons.mp hn).2
    have hself : alookup (b :: bs) b.1 = some b.2 := by
      unfold alookup
      rw [if_pos rfl]
    obtain ⟨bgwc, hlook, hkeys⟩ := hg b.1 b.2 hself
    obtain ⟨hmap, hops, _⟩ := handlePriority_lookup_some acc b bgwc hlook
    rw [List.foldl_cons] at hop
    have hg2 : ∀ p ls, alookup bs p = some ls →
        ∃ bgwc2, alookup ((handlePriority acc b).st.priorityToLocalities) p =
          some bgwc2 ∧
          ∀ x, (x ∈ akeys bgwc2.configs ↔ x ∈ ls.map (fun l => l.id)) := by
      intro p ls h
      have hpne : p ≠ b.1 := by
        intro hc
        subst hc
        exact hb ((alookup_isSome_iff_mem_akeys bs b.1).mp (by rw [h]; rfl))
      rw [hmap, alookup_ainsert_ne _ _ _ p hpne]
      have h3 : alookup (b :: bs) p = some ls := by
        rw [alookup_cons_ne b bs p (fun hc => hpne hc.symm)]
        exact h
      exact hg p ls h3
    rcases ih _ hn2 hg2 op hop with h1 | h1
    · rw [hops, List.mem_append] at h1
      rcases h1 with h1 | h1
      · exact Or.inl h1
      · exact Or.inr (handleEDSResponsePerPriority_ops_nochurn
          acc.st.subBalancerName b.1 bgwc b.2 hkeys op h1)
    · exact Or.inr h1

/-- After any `handleEDSResponse`, the priority map holds exactly the
priorities of the (weight-filtered) update, and each priority's configs hold
exactly the locality IDs of its bucket. -/
theorem handleEDSResponse_good (st : EdsState) (u : EndpointsUpdate) :
    (∀ p ls, alookup (bucketize u.localities) p = some ls →
      ∃ bgwc,
        alookup (((handleEDSResponse st u).1).priorityToLocalities) p =
          some bgwc ∧
        ∀ x, (x ∈ akeys bgwc.configs ↔ x ∈ ls.map (fun l => l.id))) ∧
    (∀ p, p ∈ akeys (((handleEDSResponse st u).1).priorityToLocalities) →
      p ∈ akeys (bucketize u.localities)) := by
  have hmain : ((handleEDSResponse st u).1).priorityToLocalities =
      (removeStalePriorities (akeys (bucketize u.localities))
        (((bucketize u.localities).foldl handlePriority
          { st := (updateDrops { st with respReceived := true } u.drops).1
            priorityLowest := none
            priorityChanged := false
            ops := [] }).st.priorityToLocalities)).1 := by
    unfold handleEDSResponse
    dsimp only
  constructor
  · intro p ls h
    have hpmem : p ∈ akeys (bucketize u.localities) :=
      (alookup_isSome_iff_mem_akeys _ _).mp (by rw [h]; rfl)
    rw [hmain, removeStalePriorities_alookup _ _ p hpmem]
    exact (foldl_handlePriority_lookup _ _ (bucketize_keys_nodup _)).1 p ls h
  · intro p hp
    rw [hmain] at hp
    exact mem_akeys_removeStalePriorities _ _ p hp

/-- If the state already reflects the update (priorities and per-priority
locality keys match), re-applying the update emits no add/remove/close
operation. -/
theorem handleEDSResponse_nochurn_of_good (st1 : EdsState)
    (u : EndpointsUpdate)
    (hg : ∀ p ls, alookup (bucketize u.localities) p = some ls →
        ∃ bgwc, alookup st1.priorityToLocalities p = some bgwc ∧
          ∀ x, (x ∈ akeys bgwc.configs ↔ x ∈ ls.map (fun l => l.id)))
    (hsub : ∀ p, p ∈ akeys st1.priorityToLocalities →
        p ∈ akeys (bucketize u.localities)) :
    ∀ op ∈ (handleEDSResponse st1 u).2, isChildChurnOp op = false := by
  have hallkept : ∀ x ∈ akeys
      (((bucketize u.localities).foldl handlePriority
        { st := (updateDrops { st1 with respReceived := true } u.drops).1
          priorityLowest := none
          priorityChanged := false
          ops := [] }).st.priorityToLocalities),
      x ∈ akeys (bucketize u.localities) := by
    intro x hx
    rw [foldl_handlePriority_map_keys] at hx
    rcases hx with hx | hx
    · rw [show ((updateDrops { st1 with respReceived := true } u.drops).1).priorityToLocalities
          = st1.priorityToLocalities from updateDrops_fst_map _ _] at hx
      exact hsub x hx
    · exact hx
  have hrm := removeStalePriorities_all_kept (akeys (bucketize u.localities)) _
    hallkept
  intro op hop
  unfold handleEDSResponse at hop
  dsimp only at hop
  rw [hrm] at hop
  dsimp only at hop
  simp only [List.append_nil, List.mem_append] at hop
  rcases hop with ((h | h) | h) | h
  · split at h
    · rw [List.mem_singleton] at h
      subst h
      rfl
    · exact absurd h (List.not_mem_nil _)
  · exact updateDrops_ops_nochurn _ _ op h
  · have hg2 : ∀ p ls, alookup (bucketize u.localities) p = some ls →
        ∃ bgwc, alookup
          ((updateDrops { st1 with respReceived := true } u.drops).1).priorityToLocalities
            p = some bgwc ∧
          ∀ x, (x ∈ akeys bgwc.configs ↔ x ∈ ls.map (fun l => l.id)) := by
      intro p ls h2
      rw [updateDrops_fst_map]
      exact hg p ls h2
    rcases foldl_handlePriority_ops_nochurn (bucketize u.localities)
      { st := (updateDrops { st1 with respReceived := true } u.drops).1
        priorityLowest := none
        priorityChanged := false
        ops := [] } (bucketize_keys_nodup _) hg2 op h with h1 | h1
    · exact absurd h1 (List.not_mem_nil _)
    · exact h1
  · split at h
    · rw [List.mem_singleton] at h
      subst h
      rfl
    · exact absurd h (List.not_mem_nil _)

/-- C8: applying the same `EndpointsUpdate` twice in a row results in zero
Add and zero Remove operations on any balancer group or aggregator (and no
group creation or close) during the second call: the second application
finds every priority and locality already present. -/
theorem handleEDSResponse_idempotent_no_churn (st : EdsState)
    (u : EndpointsUpdate) :
    ∀ op ∈ (handleEDSResponse (handleEDSResponse st u).1 u).2,
      isChildChurnOp op = false := by
  have hg := handleEDSResponse_good st u
  exact handleEDSResponse_nochurn_of_good _ u hg.1 hg.2

/-- C8 witness: two localities sharing an ID with different weights make the
second application emit weight updates (so its operation list is non-empty),
but never an add/remove. -/
theorem handleEDSResponse_idempotent_no_churn_witness :
    isChildChurnOp (EdsOp.aggUpdateWeight 0 ⟨"r", "z", "s"⟩ 1) = false :=
  handleEDSResponse_idempotent_no_churn initialEdsState
    ⟨[], [⟨⟨"r", "z", "s"⟩, [], 1, 0⟩, ⟨⟨"r", "z", "s"⟩, [], 2, 0⟩]⟩
    (EdsOp.aggUpdateWeight 0 ⟨"r", "z", "s"⟩ 1) (by decide)

end GrpcXds
